import Mathlib

/-!
Verification of the schema subsystem and fetcher response pipeline of the
packs-sdk repository (`schema.ts`, `testing/fetcher` as compiled in
`src/unnamed/part_001`).  JavaScript values are embedded shallowly:
strings are Lean `String`/`List Char` with ASCII case mappings (the JS
regexes `[A-Z]`, `\w` involved are ASCII-only), JS objects carrying
schema data become inductive values whose property maps are
insertion-ordered association lists (JS object key insertion order),
`undefined` becomes `Option.none`, and functions that `throw` return
`Except String`.
-/

/-! ## ASCII character helpers (JS semantics of the relevant regexes) -/

/-- ASCII lowercase letter test, `a`-`z` (`[a-z]`). -/
def isLowerChar (c : Char) : Bool :=
  97 ≤ c.toNat && c.toNat ≤ 122

/-- ASCII uppercase letter test, `A`-`Z` (`[A-Z]`). -/
def isUpperChar (c : Char) : Bool :=
  65 ≤ c.toNat && c.toNat ≤ 90

/-- ASCII alphanumeric test, `[A-Za-z0-9]`. -/
def isAlnumChar (c : Char) : Bool :=
  (48 ≤ c.toNat && c.toNat ≤ 57) || (65 ≤ c.toNat && c.toNat ≤ 90) ||
    (97 ≤ c.toNat && c.toNat ≤ 122)

/-- ASCII uppercase mapping, as JS `String.prototype.toUpperCase` acts on
ASCII characters. -/
def toUpperChar (c : Char) : Char :=
  if h : 97 ≤ c.toNat ∧ c.toNat ≤ 122 then
    Char.ofNatAux (c.toNat - 32) (Or.inl (by omega))
  else c

/-- ASCII lowercase mapping, as JS `String.prototype.toLocaleLowerCase`
acts on ASCII characters (header names are ASCII). -/
def toLowerChar (c : Char) : Char :=
  if h : 65 ≤ c.toNat ∧ c.toNat ≤ 90 then
    Char.ofNatAux (c.toNat + 32) (Or.inl (by omega))
  else c

/-- JS `String.prototype.toLocaleLowerCase` on ASCII strings. -/
def jsToLower (s : String) : String :=
  String.mk (s.data.map toLowerChar)

/-! ## Key normalization (`normalizeSchemaKey`, schema.ts lines 858-861)

The source is `pascalcase(key).replace(/:/g, '_')`.  The third-party
`pascalcase` dependency is not vendored in this repository. -/

/-- Modelled from the spec: the `pascalcase` dependency of
`normalizeSchemaKey` is not part of the repository source; per the spec
(§4.2, key-normalization: "title-cases/removes punctuation, strips or
escapes characters ... unsafe in downstream formula-key contexts") it
maps a string to the concatenation of its maximal alphanumeric runs,
uppercasing the first character of each run and dropping every
non-alphanumeric character.  The boolean argument tracks whether the
scanner is at the start of a run. -/
def pascalAux : Bool → List Char → List Char
  | _, [] => []
  | atStart, c :: cs =>
    if isAlnumChar c then
      (if atStart then toUpperChar c else c) :: pascalAux false cs
    else
      pascalAux true cs

/-- Modelled from the spec: see `pascalAux`. -/
def pascalcase (s : String) : String :=
  String.mk (pascalAux true s.data)

/-- `normalizeSchemaKey` from schema.ts (lines 858-861): pascal-case the
key, then replace every colon by an underscore (source comment: "Colons
cause problems in our formula handling."). -/
def normalizeSchemaKey (key : String) : String :=
  String.mk ((pascalcase key).data.map (fun c => if c = ':' then '_' else c))

/-! ## Schema data model (schema.ts)

The TS `Schema` union is a tagged union discriminated by `type`; the
number/string hint-type unions are flattened into records of their
optional fields (TS interfaces are structural).  Property maps of object
schemas are insertion-ordered association lists mirroring JS object key
order; `Properties.setKey` has JS assignment semantics (overwrite in
place if present, append otherwise). -/

/-- AttributionNode union (schema.ts lines 609-626). -/
inductive AttributionNode where
  | text (text : String)
  | link (anchorUrl : String) (anchorText : String)
  | image (anchorUrl : String) (imageUrl : String)
deriving DecidableEq, Repr

/-- IdentityDefinition (schema.ts lines 551-562). -/
structure Identity where
  name : String
  dynamicUrl : Option String := none
  attribution : Option (List AttributionNode) := none
  packId : Option Int := none
deriving DecidableEq, Repr

/-- The two object hint types (`ObjectHintValueTypes`, schema.ts line 179). -/
inductive ObjectHint where
  | person
  | reference
deriving DecidableEq, Repr

/-- The enum string value of an object hint (`ValueHintType.Person = 'person'`,
`ValueHintType.Reference = 'reference'`). -/
def ObjectHint.str : ObjectHint → String
  | .person => "person"
  | .reference => "reference"

mutual
/-- The `Schema` union (schema.ts line 642), with the number and string
hint-specific interface unions flattened into optional fields. -/
inductive Schema where
  | boolean (description : Option String)
  | number (codaType : Option String) (description : Option String) (precision : Option Int)
      (useThousandsSeparator : Option Bool) (currencyCode : Option String)
      (format : Option String) (minimum : Option String) (maximum : Option String)
      (step : Option String) (icon : Option String)
  | string (codaType : Option String) (description : Option String) (format : Option String)
      (dateFormat : Option String) (timeFormat : Option String) (precision : Option Int)
      (maxUnit : Option String)
  | array (items : Schema) (description : Option String)
  | object (properties : Properties) (id : Option String) (primary : Option String)
      (codaType : Option ObjectHint) (featured : Option (List String))
      (identity : Option Identity) (description : Option String)
deriving DecidableEq, Repr

/-- `ObjectSchemaProperties` (schema.ts lines 545-547): each property is a
`Schema & ObjectSchemaProperty`, i.e. a schema plus optional `required` and
`fromKey` annotations, keyed by property name in insertion order. -/
inductive Properties where
  | nil
  | cons (key : String) (schema : Schema) (required : Option Bool) (fromKey : Option String)
      (rest : Properties)
deriving DecidableEq, Repr
end

def Properties.lookup : Properties → String → Option (Schema × Option Bool × Option String)
  | .nil, _ => none
  | .cons k s r f rest, key => if k = key then some (s, r, f) else Properties.lookup rest key

/-- JS object property assignment `m[k] = v`: overwrite in place when the key
exists, else append. -/
def Properties.setKey : Properties → String → Schema → Option Bool → Option String → Properties
  | .nil, k, s, r, f => .cons k s r f .nil
  | .cons k' s' r' f' rest, k, s, r, f =>
    if k' = k then .cons k' s r f rest
    else .cons k' s' r' f' (Properties.setKey rest k s r f)

def Properties.append : Properties → Properties → Properties
  | .nil, q => q
  | .cons k s r f rest, q => .cons k s r f (Properties.append rest q)

def Properties.toList : Properties → List (String × Schema × Option Bool × Option String)
  | .nil => []
  | .cons k s r f rest => (k, s, r, f) :: Properties.toList rest

def Properties.keysList (ps : Properties) : List String :=
  ps.toList.map (·.1)

def Properties.length (ps : Properties) : Nat :=
  ps.toList.length

def schemaProperties : Schema → Properties
  | .object props _ _ _ _ _ _ => props
  | _ => .nil

/-! ## Schema normalization (`normalizeSchema`, schema.ts lines 863-894) -/

/-- JS `a || b` on an optional string (`fromKey || ...`): the empty string and
`undefined` are falsy. -/
def jsOrStr (a b : Option String) : Option String :=
  match a with
  | some s => if s = "" then b else some s
  | none => b

/-- JS `x ? normalizeSchemaKey(x) : undefined` on an optional string
(`id`/`primary` in the normalized object literal): the empty string is
falsy. -/
def jsTruthyKeyMap : Option String → Option String
  | some s => if s = "" then none else some (normalizeSchemaKey s)
  | none => none

mutual
/-- `normalizeSchema` (schema.ts lines 863-894): arrays rebuild with
normalized `items`, objects rebuild every property under its normalized key
(recording `fromKey`), and any other schema is returned unchanged. -/
def normalizeSchema : Schema → Schema
  | .array items _ => .array (normalizeSchema items) none
  | .object props id primary codaType featured identity _ =>
      .object (normalizeProps .nil props) (jsTruthyKeyMap id) (jsTruthyKeyMap primary)
        codaType (featured.map (List.map normalizeSchemaKey)) identity none
  | s => s

/-- The property loop of `normalizeSchema` (schema.ts lines 872-880):
`normalized[normalizedKey] = Object.assign(normalizeSchema(props),
{required, fromKey: fromKey || (normalizedKey !== key ? key : undefined)})`,
iterating `Object.keys(schema.properties)` in order with the accumulator
playing the role of the `normalized` object. -/
def normalizeProps : Properties → Properties → Properties
  | acc, .nil => acc
  | acc, .cons k sch req fk rest =>
      normalizeProps
        (acc.setKey (normalizeSchemaKey k) (normalizeSchema sch) req
          (jsOrStr fk (if normalizeSchemaKey k = k then none else some k)))
        rest
end

/-! ## Schema validation (`validateObjectSchema`, schema.ts lines 816-856) -/

/-- `checkRequiredFieldInObjectSchema` (schema.ts lines 840-845):
`ensureExists(field, message)` raises the message when the field is
`undefined`/`null`.  `ensureExists`/`assertCondition` live in
`helpers/ensure`, which is not part of the source tree; modelled from the
spec (§7: validation raises synchronously with a message identifying the
codaType and the missing field). -/
def checkRequiredFieldInObjectSchema (present : Bool) (fieldName : String) (codaType : String) :
    Except String Unit :=
  if present then .ok ()
  else .error ("Objects with codaType \"" ++ codaType ++ "\" require a \"" ++ fieldName ++
    "\" property in the schema definition.")

/-- The error raised by JS when `properties[field]` is `undefined` and
`.required` is read from it (schema.ts line 853). -/
def undefinedReadRequiredMsg : String :=
  "TypeError: Cannot read properties of undefined"

/-- `checkSchemaPropertyIsRequired` (schema.ts lines 847-856):
`assertCondition(properties[field].required, message)` raises the message
when `required` is falsy, and raises a TypeError when `properties[field]`
is itself `undefined`.  `assertCondition` is modelled from the spec as for
`checkRequiredFieldInObjectSchema`. -/
def checkSchemaPropertyIsRequired (field : String) (props : Properties) (codaType : String) :
    Except String Unit :=
  match props.lookup field with
  | none => .error undefinedReadRequiredMsg
  | some pr =>
    if pr.2.1 = some true then .ok ()
    else .error ("Field \"" ++ field ++ "\" must be marked as required in schema with codaType \"" ++
      codaType ++ "\".")

/-- The two hint-type blocks of `validateObjectSchema` (schema.ts lines
817-831): the `Reference` block checks `id`, `identity`, `primary` presence
then requiredness of the `id` and `primary` properties; the `Person` block
checks `id` presence then requiredness of the `id` property. -/
def codaTypeChecks (props : Properties) (id primary : Option String)
    (codaType : Option ObjectHint) (identity : Option Identity) : Except String Unit :=
  match codaType with
  | some .reference => do
      checkRequiredFieldInObjectSchema id.isSome "id" "reference"
      checkRequiredFieldInObjectSchema identity.isSome "identity" "reference"
      checkRequiredFieldInObjectSchema primary.isSome "primary" "reference"
      checkSchemaPropertyIsRequired (id.getD "") props "reference"
      checkSchemaPropertyIsRequired (primary.getD "") props "reference"
  | some .person => do
      checkRequiredFieldInObjectSchema id.isSome "id" "person"
      checkSchemaPropertyIsRequired (id.getD "") props "person"
  | none => .ok ()

mutual
/-- `validateObjectSchema` (schema.ts lines 816-838): hint-type checks, then
a walk over `Object.entries(schema.properties)` recursing into every
property whose own `type` is `Object`. -/
def validateObjectSchema : Schema → Except String Unit
  | .object props id primary codaType _featured identity _description => do
      codaTypeChecks props id primary codaType identity
      validateProperties props
  | _ => .ok ()

/-- The property loop of `validateObjectSchema` (schema.ts lines 833-838). -/
def validateProperties : Properties → Except String Unit
  | .nil => .ok ()
  | .cons _ sch _ _ rest => do
      (match sch with
       | .object _ _ _ _ _ _ _ => validateObjectSchema sch
       | _ => .ok ())
      validateProperties rest
end

/-- `makeObjectSchema` (schema.ts lines 797-814): spreads the definition,
sets `type: ValueType.Object`, runs `validateObjectSchema` (which raises on
violation) and returns the schema. -/
def makeObjectSchema (properties : Properties) (id primary : Option String)
    (codaType : Option ObjectHint) (featured : Option (List String))
    (identity : Option Identity) (description : Option String) : Except String Schema :=
  let schema := Schema.object properties id primary codaType featured identity description
  match validateObjectSchema schema with
  | .error e => .error e
  | .ok () => .ok schema

/-! ## `generateSchema` (schema.ts lines 719-747)

The `ValidTypes` input universe (arrays, plain objects, null, strings,
booleans, numbers) as a mutual inductive so that recursion over nested
arrays and object fields is structural. -/

mutual
inductive JsInput where
  | arr (xs : JsInputList)
  | obj (fields : JsFields)
  | nullVal
  | strVal (s : String)
  | boolVal (b : Bool)
  | numVal (n : Int)
deriving DecidableEq, Repr

inductive JsInputList where
  | nil
  | cons (head : JsInput) (tail : JsInputList)
deriving DecidableEq, Repr

inductive JsFields where
  | nil
  | cons (key : String) (val : JsInput) (rest : JsFields)
deriving DecidableEq, Repr
end

/-- The schema literal `{type: ValueType.String}`. -/
def plainStringSchema : Schema :=
  .string none none none none none none none

mutual
/-- `generateSchema` (schema.ts lines 719-747): empty arrays raise, non-empty
arrays recurse on the first element only, `null` maps to a String schema,
objects recurse over their own enumerable keys, scalars map to the schema of
their `typeof`. -/
def generateSchema : JsInput → Except String Schema
  | .arr .nil => .error "Must have representative value."
  | .arr (.cons x _) =>
      match generateSchema x with
      | .error e => .error e
      | .ok s => .ok (.array s none)
  | .obj fields =>
      match generateSchemaFields fields with
      | .error e => .error e
      | .ok props => .ok (.object props none none none none none none)
  | .nullVal => .ok plainStringSchema
  | .strVal _ => .ok plainStringSchema
  | .boolVal _ => .ok (.boolean none)
  | .numVal _ => .ok (.number none none none none none none none none none none)

/-- The `for (const key in obj)` loop of `generateSchema`
(schema.ts lines 733-737). -/
def generateSchemaFields : JsFields → Except String Properties
  | .nil => .ok .nil
  | .cons k v rest =>
      match generateSchema v with
      | .error e => .error e
      | .ok s =>
        match generateSchemaFields rest with
        | .error e => .error e
        | .ok ps => .ok (.cons k s none none ps)
end

/-! ## The authenticating fetcher response pipeline
(`AuthenticatingFetcher.fetch`, src/unnamed/part_001 lines 44-74)

The pipeline from the transport response to the returned value: size
guard, content-type sniffing and body decoding with fallback, and
`Authorization` response-header stripping.  The JSON and XML decoders are
external (`JSON.parse`, `xml2js`) and are parameters of the model; a
decoder that throws is a decoder returning `Except.error`. -/

/-- Decoded JS values, as produced by `JSON.parse` or `xml2js`. -/
inductive JsValue where
  | nullVal
  | boolVal (b : Bool)
  | numVal (n : Int)
  | strVal (s : String)
  | arrVal (elems : List JsValue)
  | objVal (fields : List (String × JsValue))

/-- JS `typeof x === 'object'` (src/unnamed/part_001 line 57): true for
objects, arrays and `null`. -/
def jsTypeofIsObject : JsValue → Bool
  | .nullVal => true
  | .arrVal _ => true
  | .objVal _ => true
  | _ => false

/-- The response delivered by the underlying transport
(`request-promise-native`): status code, headers (name-lowercased by the
transport), and the raw decoded body string as a character list. -/
structure TransportResponse where
  statusCode : Nat
  headers : List (String × String)
  body : List Char
deriving DecidableEq, Repr

/-- The body field of a `FetchResponse`: either the raw string body or a
parsed JS value. -/
inductive FetchedBody where
  | raw (s : List Char)
  | parsed (v : JsValue)

structure FetchResponse where
  status : Nat
  headers : List (String × String)
  body : FetchedBody

/-- `MAX_CONTENT_LENGTH_BYTES = 25 * 1024 * 1024`
(src/unnamed/part_001 line 24). -/
def MAX_CONTENT_LENGTH_BYTES : Nat := 25 * 1024 * 1024

/-- Substring occurrence test on character lists. -/
def listContainsRun (sub : List Char) : List Char → Bool
  | [] => sub.isEmpty
  | c :: cs => sub.isPrefixOf (c :: cs) || listContainsRun sub cs

/-- JS `String.prototype.includes`. -/
def stringIncludes (s sub : String) : Bool :=
  listContainsRun sub.data s.data

/-- The response half of `AuthenticatingFetcher.fetch`
(src/unnamed/part_001 lines 44-74), parameterized by the external JSON and
XML decoders:
size guard (`responseBody && responseBody.length >= MAX_CONTENT_LENGTH_BYTES`
throws), then the `try` block choosing the decoder by content-type sniffing
with non-objects and decode failures falling back to the raw body, then the
`Authorization` header strip, then the `{status, headers, body}` result. -/
def authenticatingFetcherFetch (jsonParse xmlParse : List Char → Except String JsValue)
    (response : TransportResponse) : Except String FetchResponse :=
  if ¬response.body.isEmpty ∧ MAX_CONTENT_LENGTH_BYTES ≤ response.body.length then
    .error ("Response body is too large for Coda. Body is " ++
      toString response.body.length ++ " bytes.")
  else
    let attempt : Except String JsValue :=
      match List.lookup "content-type" response.headers with
      | some contentType =>
          if stringIncludes contentType "text/xml" then xmlParse response.body
          else jsonParse response.body
      | none => jsonParse response.body
    let decoded : FetchedBody :=
      match attempt with
      | .ok v => if jsTypeofIsObject v then .parsed v else .raw response.body
      | .error _ => .raw response.body
    .ok
      { status := response.statusCode
        headers := response.headers.filter (fun kv => decide (¬jsToLower kv.1 = "authorization"))
        body := decoded }

/-- The decoder selected by the content-type sniffing of
`AuthenticatingFetcher.fetch` (src/unnamed/part_001 lines 49-55): the XML
decoder when the `content-type` header contains `text/xml`, the JSON
decoder otherwise. -/
def chosenParser (jsonParse xmlParse : List Char → Except String JsValue)
    (resp : TransportResponse) : Except String JsValue :=
  match List.lookup "content-type" resp.headers with
  | some contentType =>
      if stringIncludes contentType "text/xml" then xmlParse resp.body
      else jsonParse resp.body
  | none => jsonParse resp.body

/-! ## Heap model of `normalizeSchema` for the mutation claim

`normalizeSchema` is also given an operational semantics over an explicit
store of JS schema objects, because `Object.assign(normalizeSchema(props),
{required, fromKey: ...})` (schema.ts line 876) writes through the
reference returned by the recursive call.  Addresses are indices into the
store list; allocation appends.  Recursion carries fuel since a store
graph, unlike the value model, could be cyclic; the fuel plays no role on
the finite inputs evaluated here. -/

inductive ScalarTag where
  | booleanTag
  | numberTag
  | stringTag
deriving DecidableEq, Repr

/-- A JS schema object in the heap: its own schema fields plus the optional
`required`/`fromKey` annotations it may carry as a property schema. -/
inductive JsSchemaNode where
  | scalar (tag : ScalarTag) (description : Option String) (required : Option Bool)
      (fromKey : Option String)
  | arrayNode (items : Nat) (description : Option String) (required : Option Bool)
      (fromKey : Option String)
  | objectNode (props : List (String × Nat)) (id : Option String) (primary : Option String)
      (codaType : Option ObjectHint) (featured : Option (List String))
      (identity : Option Identity) (description : Option String) (required : Option Bool)
      (fromKey : Option String)
deriving DecidableEq, Repr

abbrev Store := List JsSchemaNode

/-- The in-place field writes of `Object.assign(target, {required, fromKey})`. -/
def setAnnotations : JsSchemaNode → Option Bool → Option String → JsSchemaNode
  | .scalar t d _ _, r, f => .scalar t d r f
  | .arrayNode i d _ _, r, f => .arrayNode i d r f
  | .objectNode p pid pr ct ft idn d _ _, r, f => .objectNode p pid pr ct ft idn d r f

/-- Read the `required`/`fromKey` annotations of a node
(`const {required, fromKey} = props`). -/
def nodeAnnotations : JsSchemaNode → Option Bool × Option String
  | .scalar _ _ r f => (r, f)
  | .arrayNode _ _ r f => (r, f)
  | .objectNode _ _ _ _ _ _ _ r f => (r, f)

/-- JS assignment into the `normalized` object, address-valued. -/
def jsSetAssoc : List (String × Nat) → String → Nat → List (String × Nat)
  | [], k, a => [(k, a)]
  | (k', a') :: rest, k, a =>
    if k' = k then (k', a) :: rest else (k', a') :: jsSetAssoc rest k a

mutual
/-- Store semantics of `normalizeSchema` (schema.ts lines 863-894).  Scalars
return their own address unchanged (`return schema`); arrays and objects
allocate a fresh node. -/
def normalizeSchemaImp : Nat → Store → Nat → Option (Store × Nat)
  | 0, _, _ => none
  | fuel + 1, σ, a =>
    match σ.get? a with
    | none => none
    | some (.scalar _ _ _ _) => some (σ, a)
    | some (.arrayNode items _ _ _) =>
      match normalizeSchemaImp fuel σ items with
      | none => none
      | some (σ1, i1) => some (σ1 ++ [.arrayNode i1 none none none], σ1.length)
    | some (.objectNode props pid primary ct ft idn _ _ _) =>
      match normalizePropsImp fuel σ props [] with
      | none => none
      | some (σ1, acc) =>
        some (σ1 ++ [.objectNode acc (jsTruthyKeyMap pid) (jsTruthyKeyMap primary) ct
          (ft.map (List.map normalizeSchemaKey)) idn none none none], σ1.length)

/-- Store semantics of the property loop of `normalizeSchema`: read the
annotations, recurse, then `Object.assign` the annotations through the
returned reference — mutating the original property schema object whenever
the recursion returned its argument (scalars). -/
def normalizePropsImp : Nat → Store → List (String × Nat) → List (String × Nat) →
    Option (Store × List (String × Nat))
  | 0, _, _, _ => none
  | _ + 1, σ, [], acc => some (σ, acc)
  | fuel + 1, σ, (k, pa) :: rest, acc =>
    match σ.get? pa with
    | none => none
    | some node =>
      let ann := nodeAnnotations node
      match normalizeSchemaImp fuel σ pa with
      | none => none
      | some (σ1, a1) =>
        match σ1.get? a1 with
        | none => none
        | some node1 =>
          let nk := normalizeSchemaKey k
          let fk := jsOrStr ann.2 (if nk = k then none else some k)
          let σ2 := σ1.set a1 (setAnnotations node1 ann.1 fk)
          normalizePropsImp fuel σ2 rest (jsSetAssoc acc nk a1)
end

/-! ## Predicates used in the statements of the claims -/

/-- The spec side of claim C1: `properties[field]` exists and is marked
`required: true`. -/
def propRequiredTrue (props : Properties) (field : String) : Bool :=
  match props.lookup field with
  | some pr => pr.2.1 = some true
  | none => false

/-- The spec side of claim C1, local (non-recursive) part: the invariant the
spec states for one object schema with a `Reference` or `Person` hint. -/
def localInvariantHolds (props : Properties) (id primary : Option String)
    (codaType : Option ObjectHint) (identity : Option Identity) : Bool :=
  match codaType with
  | some .reference =>
      id.isSome && identity.isSome && primary.isSome &&
        propRequiredTrue props (id.getD "") && propRequiredTrue props (primary.getD "")
  | some .person => id.isSome && propRequiredTrue props (id.getD "")
  | none => true

/-- The local invariant of a schema node (trivially true off object schemas). -/
def schemaLocalInvariant : Schema → Bool
  | .object props id primary ct _ idn _ => localInvariantHolds props id primary ct idn
  | _ => true

mutual
/-- The spec side of claim C1, recursive: the hint-type invariants hold here
and in every object-typed property, hereditarily. -/
def invariantHolds : Schema → Bool
  | .object props id primary ct _ idn _ =>
      localInvariantHolds props id primary ct idn && propsInvariant props
  | _ => true

def propsInvariant : Properties → Bool
  | .nil => true
  | .cons _ sch _ _ rest =>
      (match sch with
       | .object _ _ _ _ _ _ _ => invariantHolds sch
       | _ => true) && propsInvariant rest
end

def isObjectType : Schema → Bool
  | .object _ _ _ _ _ _ _ => true
  | _ => false

/-- Reachability through chains of direct object-typed properties, the walk
claim C6 describes. -/
inductive ReachesObj : Schema → Schema → Prop where
  | refl (s : Schema) : ReachesObj s s
  | step {v t : Schema} (props : Properties) (id primary : Option String)
      (ct : Option ObjectHint) (ft : Option (List String)) (idn : Option Identity)
      (d : Option String) (k : String) (req : Option Bool) (fk : Option String) :
      (k, v, req, fk) ∈ Properties.toList props →
      isObjectType v = true →
      ReachesObj v t →
      ReachesObj (.object props id primary ct ft idn d) t

mutual
/-- Replace the `items` of every array schema, at every depth, by a fixed
scalar.  Validation never reads `items`, which formalizes the half of claim
C6 about array-nested schemas not being walked. -/
def eraseArrayItems : Schema → Schema
  | .array _ d => .array (.boolean none) d
  | .object props id primary ct ft idn d =>
      .object (erasePropsItems props) id primary ct ft idn d
  | s => s

def erasePropsItems : Properties → Properties
  | .nil => .nil
  | .cons k sch r f rest => .cons k (eraseArrayItems sch) r f (erasePropsItems rest)
end

/-- Keys in claim C2 whose normalization interacts with the JS truthiness of
`id ? normalizeSchemaKey(id) : undefined`: a key is good unless it is
nonempty but normalizes to the empty string. -/
def goodKey : Option String → Bool
  | some s => decide (s = "" ∨ ¬normalizeSchemaKey s = "")
  | none => true

mutual
/-- Hypothesis of the amended claim C2: no object schema at any depth has an
`id` or `primary` that is nonempty yet normalizes to the empty string. -/
def goodSchema : Schema → Bool
  | .array items _ => goodSchema items
  | .object props id primary _ _ _ _ => goodKey id && goodKey primary && goodProps props
  | _ => true

def goodProps : Properties → Bool
  | .nil => true
  | .cons _ sch _ _ rest => goodSchema sch && goodProps rest
end

/-- The correspondence predicate of claim C4: a normalized property accounts
for original key `k` when its `fromKey` is `k`, or, when it has no
`fromKey` (its key was unchanged), when its own key is `k`. -/
def matchesOriginalKey (entry : String × Schema × Option Bool × Option String)
    (k : String) : Bool :=
  match entry.2.2.2 with
  | some fk => fk = k
  | none => entry.1 = k

/-- The transform the property loop of `normalizeSchema` applies to a single
property (key normalization, recursive schema normalization, `fromKey`
computation), as a list map; `normalizeProps` agrees with it whenever the
normalized keys do not collide. -/
def mapNormalizeProps : Properties → Properties
  | .nil => .nil
  | .cons k sch req fk rest =>
      .cons (normalizeSchemaKey k) (normalizeSchema sch) req
        (jsOrStr fk (if normalizeSchemaKey k = k then none else some k))
        (mapNormalizeProps rest)

deriving instance DecidableEq for Except

/-! ## Helper lemmas: ASCII characters and key normalization -/

theorem isLowerChar_iff {c : Char} : isLowerChar c = true ↔ 97 ≤ c.toNat ∧ c.toNat ≤ 122 := by
  simp [isLowerChar, Bool.and_eq_true, decide_eq_true_eq]

theorem isAlnumChar_iff {c : Char} :
    isAlnumChar c = true ↔
      (48 ≤ c.toNat ∧ c.toNat ≤ 57) ∨ (65 ≤ c.toNat ∧ c.toNat ≤ 90) ∨
        (97 ≤ c.toNat ∧ c.toNat ≤ 122) := by
  simp [isAlnumChar, Bool.and_eq_true, Bool.or_eq_true, decide_eq_true_eq, or_assoc]

theorem toNat_toUpperChar_of_lower {c : Char} (h : isLowerChar c = true) :
    (toUpperChar c).toNat = c.toNat - 32 := by
  have h' : 97 ≤ c.toNat ∧ c.toNat ≤ 122 := isLowerChar_iff.mp h
  unfold toUpperChar
  rw [dif_pos h']
  rfl

theorem toUpperChar_of_not_lower {c : Char} (h : isLowerChar c = false) :
    toUpperChar c = c := by
  have h' : ¬(97 ≤ c.toNat ∧ c.toNat ≤ 122) := by
    intro hc
    rw [isLowerChar_iff.mpr hc] at h
    exact absurd h (by simp)
  unfold toUpperChar
  rw [dif_neg h']

theorem isAlnumChar_toUpperChar {c : Char} (h : isAlnumChar c = true) :
    isAlnumChar (toUpperChar c) = true := by
  by_cases hl : isLowerChar c = true
  · have ht := toNat_toUpperChar_of_lower hl
    have hb := isLowerChar_iff.mp hl
    rw [isAlnumChar_iff, ht]
    omega
  · rw [toUpperChar_of_not_lower (Bool.not_eq_true _ ▸ hl)]
    exact h

theorem isLowerChar_toUpperChar (c : Char) :
    isLowerChar (toUpperChar c) = false := by
  by_cases hl : isLowerChar c = true
  · have ht := toNat_toUpperChar_of_lower hl
    have hb := isLowerChar_iff.mp hl
    rw [Bool.eq_false_iff]
    intro hcon
    have := isLowerChar_iff.mp hcon
    omega
  · rw [toUpperChar_of_not_lower (Bool.not_eq_true _ ▸ hl)]
    exact Bool.not_eq_true _ ▸ hl

theorem toUpperChar_idem (c : Char) : toUpperChar (toUpperChar c) = toUpperChar c :=
  toUpperChar_of_not_lower (isLowerChar_toUpperChar c)

theorem pascalAux_cons_alnum (b : Bool) (c : Char) (cs : List Char)
    (h : isAlnumChar c = true) :
    pascalAux b (c :: cs) = (if b then toUpperChar c else c) :: pascalAux false cs := by
  simp [pascalAux, h]

theorem pascalAux_cons_not_alnum (b : Bool) (c : Char) (cs : List Char)
    (h : isAlnumChar c = false) :
    pascalAux b (c :: cs) = pascalAux true cs := by
  simp [pascalAux, h]

theorem pascalAux_all_alnum :
    ∀ (b : Bool) (s : List Char) (c : Char), c ∈ pascalAux b s → isAlnumChar c = true := by
  intro b s
  induction s generalizing b with
  | nil => intro c hc; simp [pascalAux] at hc
  | cons d ds ih =>
    intro c hc
    cases hd : isAlnumChar d with
    | true =>
      rw [pascalAux_cons_alnum b d ds hd] at hc
      rcases List.mem_cons.mp hc with h | h
      · subst h
        cases b with
        | false => exact hd
        | true => simpa using isAlnumChar_toUpperChar hd
      · exact ih false c h
    | false =>
      rw [pascalAux_cons_not_alnum b d ds hd] at hc
      exact ih true c hc

theorem pascalAux_false_of_alnum :
    ∀ (s : List Char), (∀ c ∈ s, isAlnumChar c = true) → pascalAux false s = s := by
  intro s
  induction s with
  | nil => intro _; rfl
  | cons d ds ih =>
    intro h
    have hd : isAlnumChar d = true := h d (List.mem_cons_self d ds)
    rw [pascalAux_cons_alnum false d ds hd, if_neg (by simp)]
    exact congrArg (d :: ·) (ih fun c hc => h c (List.mem_cons_of_mem d hc))

theorem pascalAux_true_head :
    ∀ (s : List Char) (c : Char) (cs : List Char),
      pascalAux true s = c :: cs → ∃ e, c = toUpperChar e := by
  intro s
  induction s with
  | nil => intro c cs h; simp [pascalAux] at h
  | cons e es ih =>
    intro c cs h
    cases he : isAlnumChar e with
    | true =>
      rw [pascalAux_cons_alnum true e es he, if_pos rfl] at h
      exact ⟨e, (List.cons.injEq _ _ _ _ ▸ h).1.symm⟩
    | false =>
      rw [pascalAux_cons_not_alnum true e es he] at h
      exact ih c cs h

theorem pascalAux_true_idem (s : List Char) :
    pascalAux true (pascalAux true s) = pascalAux true s := by
  cases hs : pascalAux true s with
  | nil => rfl
  | cons c cs =>
    have hall : ∀ d ∈ c :: cs, isAlnumChar d = true := by
      intro d hd
      exact pascalAux_all_alnum true s d (hs ▸ hd)
    have hc : isAlnumChar c = true := hall c (List.mem_cons_self c cs)
    have hcu : toUpperChar c = c := by
      rcases pascalAux_true_head s c cs hs with ⟨e, he⟩
      rw [he, toUpperChar_idem]
    rw [pascalAux_cons_alnum true c cs hc, if_pos rfl, hcu]
    exact congrArg (c :: ·) (pascalAux_false_of_alnum cs
      (fun d hd => hall d (List.mem_cons_of_mem c hd)))

theorem alnum_ne_colon {c : Char} (h : isAlnumChar c = true) : ¬(c = ':') := by
  intro hc
  subst hc
  simp [isAlnumChar] at h

theorem replaceColon_of_alnum (l : List Char) (h : ∀ c ∈ l, isAlnumChar c = true) :
    l.map (fun c => if c = ':' then '_' else c) = l := by
  induction l with
  | nil => rfl
  | cons c cs ih =>
    simp only [List.map_cons, if_neg (alnum_ne_colon (h c (List.mem_cons_self c cs)))]
    exact congrArg (c :: ·) (ih fun d hd => h d (List.mem_cons_of_mem c hd))

/-- Shared idempotence helper for `normalizeSchemaKey`. -/
theorem normalizeSchemaKey_idem (k : String) :
    normalizeSchemaKey (normalizeSchemaKey k) = normalizeSchemaKey k := by
  have halnum : ∀ c ∈ pascalAux true k.data, isAlnumChar c = true :=
    fun c hc => pascalAux_all_alnum true k.data c hc
  have h1 : normalizeSchemaKey k = String.mk (pascalAux true k.data) := by
    simp only [normalizeSchemaKey, pascalcase]
    exact congrArg String.mk (replaceColon_of_alnum _ halnum)
  rw [h1]
  simp only [normalizeSchemaKey, pascalcase]
  rw [replaceColon_of_alnum _ (fun c hc => pascalAux_all_alnum true _ c hc),
    pascalAux_true_idem]

/-! ## Helper lemmas: property lists -/

theorem toList_append : ∀ (p q : Properties), (p.append q).toList = p.toList ++ q.toList
  | .nil, q => by simp [Properties.append, Properties.toList]
  | .cons k s r f rest, q => by
    simp only [Properties.append, Properties.toList, List.cons_append]
    exact congrArg ((k, s, r, f) :: ·) (toList_append rest q)

theorem keysList_append (p q : Properties) :
    (p.append q).keysList = p.keysList ++ q.keysList := by
  simp [Properties.keysList, toList_append]

theorem append_nil_left (p : Properties) : Properties.append .nil p = p := rfl

theorem cons_append (k : String) (s : Schema) (r : Option Bool) (f : Option String)
    (p : Properties) :
    Properties.append (.cons k s r f .nil) p = .cons k s r f p := by
  simp [Properties.append]

theorem append_assoc : ∀ (p q u : Properties),
    (p.append q).append u = p.append (q.append u)
  | .nil, q, u => by simp [Properties.append]
  | .cons k s r f rest, q, u => by
    simp only [Properties.append]
    exact congrArg _ (append_assoc rest q u)

theorem setKey_of_not_mem : ∀ (p : Properties) (k : String) (s : Schema) (r : Option Bool)
    (f : Option String), k ∉ p.keysList → p.setKey k s r f = p.append (.cons k s r f .nil)
  | .nil, k, s, r, f, _ => by simp [Properties.setKey, Properties.append]
  | .cons k' s' r' f' rest, k, s, r, f, h => by
    have hk : ¬(k' = k) := by
      intro he
      exact h (by simp [Properties.keysList, Properties.toList, he])
    have hrest : k ∉ rest.keysList := by
      intro hin
      exact h (by simp [Properties.keysList, Properties.toList] at hin ⊢; exact Or.inr hin)
    simp [Properties.setKey, hk, Properties.append, setKey_of_not_mem rest k s r f hrest]

theorem mem_toList_setKey : ∀ (p : Properties) (k : String) (s : Schema) (r : Option Bool)
    (f : Option String) (e : String × Schema × Option Bool × Option String),
    e ∈ (p.setKey k s r f).toList → e ∈ p.toList ∨ e = (k, s, r, f)
  | .nil, k, s, r, f, e, he => by
    simp [Properties.setKey, Properties.toList] at he
    exact Or.inr he
  | .cons k' s' r' f' rest, k, s, r, f, e, he => by
    by_cases hk : k' = k
    · simp [Properties.setKey, hk, Properties.toList] at he
      rcases he with he | he
      · exact Or.inr (by simp [he, hk])
      · exact Or.inl (by simp [Properties.toList, he])
    · simp only [Properties.setKey, if_neg hk, Properties.toList, List.mem_cons] at he
      rcases he with he | he
      · exact Or.inl (by simp [Properties.toList, he])
      · rcases mem_toList_setKey rest k s r f e he with h1 | h1
        · exact Or.inl (by simp [Properties.toList, h1])
        · exact Or.inr h1

theorem keysList_setKey : ∀ (p : Properties) (k : String) (s : Schema) (r : Option Bool)
    (f : Option String),
    (p.setKey k s r f).keysList = if k ∈ p.keysList then p.keysList else p.keysList ++ [k]
  | .nil, k, s, r, f => by simp [Properties.setKey, Properties.keysList, Properties.toList]
  | .cons k' s' r' f' rest, k, s, r, f => by
    have ih := keysList_setKey rest k s r f
    by_cases hk : k' = k
    · simp [Properties.setKey, hk, Properties.keysList, Properties.toList]
    · have hmem : (k ∈ (Properties.cons k' s' r' f' rest).keysList) ↔ k ∈ rest.keysList := by
        simp [Properties.keysList, Properties.toList, Ne.symm hk]
      by_cases hin : k ∈ rest.keysList
      · rw [if_pos (hmem.mpr hin)]
        rw [if_pos hin] at ih
        simp only [Properties.setKey, if_neg hk, Properties.keysList, Properties.toList,
          List.map_cons] at ih ⊢
        exact congrArg (k' :: ·) ih
      · rw [if_neg (fun hc => hin (hmem.mp hc))]
        rw [if_neg hin] at ih
        simp only [Properties.setKey, if_neg hk, Properties.keysList, Properties.toList,
          List.map_cons, List.cons_append] at ih ⊢
        exact congrArg (k' :: ·) ih

theorem keysList_nodup_setKey (p : Properties) (k : String) (s : Schema) (r : Option Bool)
    (f : Option String) (h : p.keysList.Nodup) : (p.setKey k s r f).keysList.Nodup := by
  rw [keysList_setKey]
  by_cases hin : k ∈ p.keysList
  · simp [hin, h]
  · simp only [if_neg hin]
    exact List.Nodup.append h (List.nodup_singleton k) (by
      intro a ha hb
      simp at hb
      subst hb
      exact hin ha)

theorem keysList_cons (k : String) (s : Schema) (r : Option Bool) (f : Option String)
    (rest : Properties) :
    (Properties.cons k s r f rest).keysList = k :: rest.keysList := by
  simp [Properties.keysList, Properties.toList]

theorem keysList_nil : Properties.keysList .nil = [] := rfl

theorem append_nil_right : ∀ (p : Properties), p.append .nil = p
  | .nil => rfl
  | .cons k s r f rest => by
    simp only [Properties.append]
    exact congrArg _ (append_nil_right rest)

/-! ## Helper lemmas: the property loop of `normalizeSchema` -/

theorem jsOrStr_none {fk : Option String} (h : ¬fk = some "") : jsOrStr fk none = fk := by
  cases fk with
  | none => rfl
  | some s =>
    have hs : ¬s = "" := fun he => h (by rw [he])
    simp [jsOrStr, hs]

theorem jsOrStr_ne_some_empty {fk alt : Option String} (halt : ¬alt = some "") :
    ¬jsOrStr fk alt = some "" := by
  cases fk with
  | none => simpa [jsOrStr] using halt
  | some s =>
    by_cases hs : s = ""
    · simpa [jsOrStr, hs] using halt
    · simp [jsOrStr, hs, hs]

theorem normalizeSchemaKey_empty : normalizeSchemaKey "" = "" := rfl

theorem fromKeyAlt_ne_some_empty (k : String) :
    ¬(if normalizeSchemaKey k = k then none else some k) = some "" := by
  by_cases hk : normalizeSchemaKey k = k
  · simp [hk]
  · rw [if_neg hk]
    intro hc
    have : k = "" := by simpa using hc
    exact hk (by rw [this]; exact normalizeSchemaKey_empty)

theorem mem_toList_normalizeProps : ∀ (ps acc : Properties)
    (e : String × Schema × Option Bool × Option String),
    e ∈ (normalizeProps acc ps).toList →
    e ∈ acc.toList ∨ ∃ k sch req fk, (k, sch, req, fk) ∈ ps.toList ∧
      e = (normalizeSchemaKey k, normalizeSchema sch, req,
        jsOrStr fk (if normalizeSchemaKey k = k then none else some k))
  | .nil, acc, e, he => Or.inl (by simpa [normalizeProps] using he)
  | .cons k sch req fk rest, acc, e, he => by
    simp only [normalizeProps] at he
    rcases mem_toList_normalizeProps rest _ e he with h1 | h1
    · rcases mem_toList_setKey acc _ _ _ _ e h1 with h2 | h2
      · exact Or.inl h2
      · exact Or.inr ⟨k, sch, req, fk, by simp [Properties.toList], h2⟩
    · rcases h1 with ⟨k0, sch0, req0, fk0, hmem, heq⟩
      refine Or.inr ⟨k0, sch0, req0, fk0, ?_, heq⟩
      simp only [Properties.toList, List.mem_cons]
      exact Or.inr hmem

theorem keysList_nodup_normalizeProps : ∀ (ps acc : Properties),
    acc.keysList.Nodup → (normalizeProps acc ps).keysList.Nodup
  | .nil, _, h => by simpa [normalizeProps] using h
  | .cons k sch req fk rest, acc, h => by
    simp only [normalizeProps]
    exact keysList_nodup_normalizeProps rest _ (keysList_nodup_setKey _ _ _ _ _ h)

theorem normalizeProps_id : ∀ (ps acc : Properties),
    (∀ k sch req fk, (k, sch, req, fk) ∈ ps.toList →
      normalizeSchemaKey k = k ∧ normalizeSchema sch = sch ∧ ¬fk = some "") →
    ps.keysList.Nodup →
    (∀ k ∈ ps.keysList, k ∉ acc.keysList) →
    normalizeProps acc ps = acc.append ps
  | .nil, acc, _, _, _ => by simp [normalizeProps, append_nil_right]
  | .cons k sch req fk rest, acc, hent, hnod, hdisj => by
    obtain ⟨hk, hsch, hfk⟩ := hent k sch req fk (by simp [Properties.toList])
    have hkmem : k ∉ acc.keysList := hdisj k (by simp [keysList_cons])
    have step : acc.setKey (normalizeSchemaKey k) (normalizeSchema sch) req
        (jsOrStr fk (if normalizeSchemaKey k = k then none else some k)) =
        acc.append (.cons k sch req fk .nil) := by
      rw [hk, hsch, if_pos rfl, jsOrStr_none hfk]
      exact setKey_of_not_mem acc k sch req fk hkmem
    simp only [normalizeProps, step]
    have hnod' : rest.keysList.Nodup := by
      rw [keysList_cons] at hnod
      exact (List.nodup_cons.mp hnod).2
    have hknotin : k ∉ rest.keysList := by
      rw [keysList_cons] at hnod
      exact (List.nodup_cons.mp hnod).1
    have hdisj' : ∀ k' ∈ rest.keysList, k' ∉ (acc.append (.cons k sch req fk .nil)).keysList := by
      intro k' hk' hc
      rw [keysList_append, keysList_cons, keysList_nil] at hc
      rcases List.mem_append.mp hc with hc | hc
      · exact hdisj k' (by rw [keysList_cons]; exact List.mem_cons_of_mem k hk') hc
      · simp at hc
        subst hc
        exact hknotin hk'
    rw [normalizeProps_id rest _ (fun k' sch' req' fk' hm =>
        hent k' sch' req' fk' (by simp only [Properties.toList, List.mem_cons]; exact Or.inr hm))
      hnod' hdisj']
    rw [append_assoc, cons_append]

theorem jsTruthyKeyMap_idem (o : Option String) (h : goodKey o = true) :
    jsTruthyKeyMap (jsTruthyKeyMap o) = jsTruthyKeyMap o := by
  cases o with
  | none => rfl
  | some s =>
    by_cases hs : s = ""
    · simp [jsTruthyKeyMap, hs]
    · have hne : ¬normalizeSchemaKey s = "" := by
        have := of_decide_eq_true (by simpa [goodKey] using h)
        tauto
      simp [jsTruthyKeyMap, hs, hne, normalizeSchemaKey_idem s]

theorem featuredMap_idem (ft : Option (List String)) :
    (ft.map (List.map normalizeSchemaKey)).map (List.map normalizeSchemaKey) =
      ft.map (List.map normalizeSchemaKey) := by
  cases ft with
  | none => rfl
  | some l =>
    have hl : List.map normalizeSchemaKey (List.map normalizeSchemaKey l) =
        List.map normalizeSchemaKey l := by
      rw [List.map_map]
      exact List.map_congr_left (fun a _ => normalizeSchemaKey_idem a)
    simp [hl]

mutual
theorem normalizeSchema_idem_aux : ∀ (s : Schema), goodSchema s = true →
    normalizeSchema (normalizeSchema s) = normalizeSchema s
  | .boolean _, _ => rfl
  | .number _ _ _ _ _ _ _ _ _ _, _ => rfl
  | .string _ _ _ _ _ _ _, _ => rfl
  | .array items _, h => by
    have hi : goodSchema items = true := h
    simp only [normalizeSchema]
    rw [normalizeSchema_idem_aux items hi]
  | .object props id primary ct ft idn _, h => by
    have h' : goodKey id = true ∧ goodKey primary = true ∧ goodProps props = true := by
      simpa [goodSchema, Bool.and_eq_true, and_assoc] using h
    obtain ⟨hgid, hgpr, hgprops⟩ := h'
    simp only [normalizeSchema]
    have hout : normalizeProps .nil (normalizeProps .nil props) = normalizeProps .nil props := by
      have hids := normalizeProps_id (normalizeProps Properties.nil props) Properties.nil ?_ ?_ ?_
      · rw [hids, append_nil_left]
      · intro k sch req fk hm
        rcases mem_toList_normalizeProps props .nil _ hm with hc | hc
        · simp [Properties.toList] at hc
        · rcases hc with ⟨k0, sch0, req0, fk0, hmem, heq⟩
          have heq' : k = normalizeSchemaKey k0 ∧ sch = normalizeSchema sch0 ∧
              req = req0 ∧
              fk = jsOrStr fk0 (if normalizeSchemaKey k0 = k0 then none else some k0) := by
            simpa [Prod.ext_iff] using heq
          obtain ⟨hk0, hsch0, -, hfk0⟩ := heq'
          refine ⟨?_, ?_, ?_⟩
          · rw [hk0]; exact normalizeSchemaKey_idem k0
          · rw [hsch0]
            exact normalizeProps_entry_idem props hgprops k0 sch0 req0 fk0 hmem
          · rw [hfk0]
            exact jsOrStr_ne_some_empty (fromKeyAlt_ne_some_empty k0)
      · exact keysList_nodup_normalizeProps props .nil (by simp [keysList_nil])
      · intro k _ hc
        simp [keysList_nil] at hc
    rw [hout, jsTruthyKeyMap_idem id hgid, jsTruthyKeyMap_idem primary hgpr, featuredMap_idem ft]

theorem normalizeProps_entry_idem : ∀ (ps : Properties), goodProps ps = true →
    ∀ k sch req fk, (k, sch, req, fk) ∈ ps.toList →
      normalizeSchema (normalizeSchema sch) = normalizeSchema sch
  | .nil, _, k, sch, req, fk, hm => by simp [Properties.toList] at hm
  | .cons k0 sch0 req0 fk0 rest, h, k, sch, req, fk, hm => by
    have h' : goodSchema sch0 = true ∧ goodProps rest = true := by
      simpa [goodProps, Bool.and_eq_true] using h
    simp only [Properties.toList, List.mem_cons] at hm
    rcases hm with hm | hm
    · have h4 : k = k0 ∧ sch = sch0 ∧ req = req0 ∧ fk = fk0 := by
        simpa [Prod.ext_iff] using hm
      rw [h4.2.1]
      exact normalizeSchema_idem_aux sch0 h'.1
    · exact normalizeProps_entry_idem rest h'.2 k sch req fk hm
end

theorem jsOrStr_none_left (b : Option String) : jsOrStr none b = b := rfl

theorem toList_mapNormalizeProps : ∀ (ps : Properties),
    (mapNormalizeProps ps).toList =
      ps.toList.map (fun e => (normalizeSchemaKey e.1, normalizeSchema e.2.1, e.2.2.1,
        jsOrStr e.2.2.2 (if normalizeSchemaKey e.1 = e.1 then none else some e.1)))
  | .nil => rfl
  | .cons k sch req fk rest => by
    simp only [mapNormalizeProps, Properties.toList, List.map_cons]
    exact congrArg _ (toList_mapNormalizeProps rest)

theorem length_mapNormalizeProps (ps : Properties) :
    (mapNormalizeProps ps).length = ps.length := by
  simp [Properties.length, toList_mapNormalizeProps]

theorem keysList_mapNormalizeProps (ps : Properties) :
    (mapNormalizeProps ps).keysList = ps.keysList.map normalizeSchemaKey := by
  simp [Properties.keysList, toList_mapNormalizeProps, List.map_map]

/-- When normalized keys do not collide, the JS upsert fold of
`normalizeSchema` agrees with a plain per-property map. -/
theorem normalizeProps_eq_map : ∀ (ps acc : Properties),
    (ps.keysList.map normalizeSchemaKey).Nodup →
    (∀ k ∈ ps.keysList, normalizeSchemaKey k ∉ acc.keysList) →
    normalizeProps acc ps = acc.append (mapNormalizeProps ps)
  | .nil, acc, _, _ => by simp [normalizeProps, mapNormalizeProps, append_nil_right]
  | .cons k sch req fk rest, acc, hnod, hdisj => by
    have hkmem : normalizeSchemaKey k ∉ acc.keysList := hdisj k (by simp [keysList_cons])
    have step : acc.setKey (normalizeSchemaKey k) (normalizeSchema sch) req
        (jsOrStr fk (if normalizeSchemaKey k = k then none else some k)) =
        acc.append (.cons (normalizeSchemaKey k) (normalizeSchema sch) req
          (jsOrStr fk (if normalizeSchemaKey k = k then none else some k)) .nil) :=
      setKey_of_not_mem acc _ _ _ _ hkmem
    simp only [normalizeProps, step]
    rw [keysList_cons, List.map_cons, List.nodup_cons] at hnod
    have hdisj' : ∀ k' ∈ rest.keysList,
        normalizeSchemaKey k' ∉ (acc.append (.cons (normalizeSchemaKey k)
          (normalizeSchema sch) req
          (jsOrStr fk (if normalizeSchemaKey k = k then none else some k)) .nil)).keysList := by
      intro k' hk' hc
      rw [keysList_append, keysList_cons, keysList_nil] at hc
      rcases List.mem_append.mp hc with hc | hc
      · exact hdisj k' (by rw [keysList_cons]; exact List.mem_cons_of_mem k hk') hc
      · simp at hc
        exact hnod.1 (hc ▸ List.mem_map_of_mem normalizeSchemaKey hk')
    rw [normalizeProps_eq_map rest _ hnod.2 hdisj']
    rw [append_assoc, cons_append]
    simp only [mapNormalizeProps]

theorem matchesOriginalKey_mapped (k0 k : String) (s : Schema) (r : Option Bool) :
    matchesOriginalKey (normalizeSchemaKey k0, s, r,
      (if normalizeSchemaKey k0 = k0 then none else some k0)) k = decide (k0 = k) := by
  by_cases h : normalizeSchemaKey k0 = k0
  · simp only [if_pos h, matchesOriginalKey]
    rw [h]
  · simp only [if_neg h, matchesOriginalKey]

theorem filter_matches_nil : ∀ (ps : Properties),
    (∀ k sch req fk, (k, sch, req, fk) ∈ ps.toList → fk = none) →
    ∀ k, k ∉ ps.keysList →
    (mapNormalizeProps ps).toList.filter (fun e => matchesOriginalKey e k) = []
  | .nil, _, k, _ => rfl
  | .cons k0 sch0 req0 fk0 rest, hnofk, k, hk => by
    have hfk0 : fk0 = none := hnofk k0 sch0 req0 fk0 (by simp [Properties.toList])
    have hk0 : ¬(k0 = k) := fun he => hk (by rw [keysList_cons]; exact he ▸ List.mem_cons_self k0 _)
    simp only [mapNormalizeProps, Properties.toList, List.filter_cons, hfk0, jsOrStr_none_left]
    rw [matchesOriginalKey_mapped k0 k, if_neg (by simp [hk0])]
    exact filter_matches_nil rest
      (fun k' sch' req' fk' hm => hnofk k' sch' req' fk'
        (by simp only [Properties.toList, List.mem_cons]; exact Or.inr hm))
      k (fun hc => hk (by rw [keysList_cons]; exact List.mem_cons_of_mem k0 hc))

theorem filter_matches_singleton : ∀ (ps : Properties),
    ps.keysList.Nodup →
    (∀ k sch req fk, (k, sch, req, fk) ∈ ps.toList → fk = none) →
    ∀ k, k ∈ ps.keysList →
    ∃ sch req, (mapNormalizeProps ps).toList.filter (fun e => matchesOriginalKey e k) =
      [(normalizeSchemaKey k, normalizeSchema sch, req,
        if normalizeSchemaKey k = k then none else some k)]
  | .nil, _, _, k, hk => by simp [keysList_nil] at hk
  | .cons k0 sch0 req0 fk0 rest, hnod, hnofk, k, hk => by
    have hfk0 : fk0 = none := hnofk k0 sch0 req0 fk0 (by simp [Properties.toList])
    rw [keysList_cons] at hnod hk
    have hnofk' : ∀ k' sch' req' fk', (k', sch', req', fk') ∈ rest.toList → fk' = none :=
      fun k' sch' req' fk' hm => hnofk k' sch' req' fk'
        (by simp only [Properties.toList, List.mem_cons]; exact Or.inr hm)
    by_cases hkk : k0 = k
    · subst hkk
      refine ⟨sch0, req0, ?_⟩
      simp only [mapNormalizeProps, Properties.toList, List.filter_cons, hfk0, jsOrStr_none_left]
      rw [matchesOriginalKey_mapped k0 k0, if_pos (by simp)]
      rw [filter_matches_nil rest hnofk' k0 (List.nodup_cons.mp hnod).1]
    · have hkrest : k ∈ rest.keysList := by
        rcases List.mem_cons.mp hk with h | h
        · exact absurd h.symm hkk
        · exact h
      obtain ⟨sch, req, hfil⟩ := filter_matches_singleton rest (List.nodup_cons.mp hnod).2
        hnofk' k hkrest
      refine ⟨sch, req, ?_⟩
      simp only [mapNormalizeProps, Properties.toList, List.filter_cons, hfk0, jsOrStr_none_left]
      rw [matchesOriginalKey_mapped k0 k, if_neg (by simp [hkk])]
      exact hfil

/-! ## Claims about key and schema normalization -/

/-- C5: the key-normalization function is idempotent — for every string
`k`, `normalizeSchemaKey (normalizeSchemaKey k) = normalizeSchemaKey k`,
where `normalizeSchemaKey` pascal-cases the key and replaces every colon
with an underscore. -/
theorem claim_C5_normalizeSchemaKey_idempotent (k : String) :
    normalizeSchemaKey (normalizeSchemaKey k) = normalizeSchemaKey k :=
  normalizeSchemaKey_idem k

/-- C2 counterexample: `normalizeSchema` is not idempotent on every valid
schema.  The object schema with `id: "  "` (a nonempty key that
normalizes to the empty string) normalizes to a schema with `id: ""`,
which the second pass turns into `id: undefined` because of the JS
truthiness test `id ? normalizeSchemaKey(id) : undefined`
(schema.ts line 883). -/
theorem claim_C2_counterexample :
    ¬(normalizeSchema (normalizeSchema
        (Schema.object .nil (some "  ") none none none none none)) =
      normalizeSchema (Schema.object .nil (some "  ") none none none none none)) := by
  decide

/-- C2 (amended): for every schema in which no object-level `id` or
`primary` is a nonempty string normalizing to the empty string
(`goodSchema`), normalizing twice equals normalizing once, for every shape
in the Schema union, recursively. -/
theorem claim_C2_normalizeSchema_idempotent (s : Schema) (h : goodSchema s = true) :
    normalizeSchema (normalizeSchema s) = normalizeSchema s :=
  normalizeSchema_idem_aux s h

/-- C2 witness: the amended idempotence applied to a concrete object schema
with a to-be-normalized key and an `id`. -/
theorem claim_C2_witness :
    goodSchema (Schema.object
      (.cons "foo bar" plainStringSchema (some true) none
        (.cons "baz" (.array plainStringSchema none) none none .nil))
      (some "foo bar") (some "baz") none none none none) = true ∧
    normalizeSchema (normalizeSchema (Schema.object
      (.cons "foo bar" plainStringSchema (some true) none
        (.cons "baz" (.array plainStringSchema none) none none .nil))
      (some "foo bar") (some "baz") none none none none)) =
    normalizeSchema (Schema.object
      (.cons "foo bar" plainStringSchema (some true) none
        (.cons "baz" (.array plainStringSchema none) none none .nil))
      (some "foo bar") (some "baz") none none none none) :=
  ⟨by decide, claim_C2_normalizeSchema_idempotent _ (by decide)⟩

/-- C4 counterexample: normalization does not always preserve the number of
properties.  The keys `"foo bar"` and `"FooBar"` both normalize to
`"FooBar"`, so the second property overwrites the first in the normalized
map (`normalized[normalizedKey] = ...`, schema.ts line 876) and the
normalized schema has one property where the input had two; consequently no
normalized property accounts for the original key `"foo bar"` either.  (The
second property also carries an explicit `fromKey: "x"`, which is kept in
preference over its original key.) -/
theorem claim_C4_counterexample :
    ¬((schemaProperties (normalizeSchema (Schema.object
        (.cons "foo bar" plainStringSchema none none
          (.cons "FooBar" plainStringSchema none (some "x") .nil))
        none none none none none none))).length =
      (Properties.cons "foo bar" plainStringSchema none none
        (.cons "FooBar" plainStringSchema none (some "x") .nil)).length) := by
  decide

/-- C4 (amended): for every object schema whose property keys are distinct
(as JS object keys are), normalize injectively (no two distinct keys share
a canonical key), and none of whose properties declares an explicit
`fromKey`: the normalized schema has exactly as many properties as the
original, and for each original key there is exactly one normalized
property whose `fromKey` (or whose own key, if the key was unchanged)
equals that original key; a property whose canonical key differs from its
original key has `fromKey` set to the original key. -/
theorem claim_C4_normalization_preserves_structure
    (ps : Properties) (id primary : Option String) (ct : Option ObjectHint)
    (ft : Option (List String)) (idn : Option Identity) (d : Option String)
    (hnodup : ps.keysList.Nodup)
    (hinj : ∀ k1 ∈ ps.keysList, ∀ k2 ∈ ps.keysList,
      normalizeSchemaKey k1 = normalizeSchemaKey k2 → k1 = k2)
    (hnofk : ∀ k sch req fk, (k, sch, req, fk) ∈ ps.toList → fk = none) :
    schemaProperties (normalizeSchema (.object ps id primary ct ft idn d)) =
      mapNormalizeProps ps ∧
    (mapNormalizeProps ps).length = ps.length ∧
    ∀ k ∈ ps.keysList,
      ((mapNormalizeProps ps).toList.filter (fun e => matchesOriginalKey e k)).length = 1 ∧
      ∀ e ∈ (mapNormalizeProps ps).toList.filter (fun e => matchesOriginalKey e k),
        ¬normalizeSchemaKey k = k → e.2.2.2 = some k := by
  have hmapnodup : (ps.keysList.map normalizeSchemaKey).Nodup :=
    List.Nodup.map_on hinj hnodup
  have hprops : schemaProperties (normalizeSchema (.object ps id primary ct ft idn d)) =
      mapNormalizeProps ps := by
    simp only [normalizeSchema, schemaProperties]
    rw [normalizeProps_eq_map ps .nil hmapnodup (by intro k _ hc; simp [keysList_nil] at hc)]
    exact append_nil_left _
  refine ⟨hprops, length_mapNormalizeProps ps, ?_⟩
  intro k hk
  obtain ⟨sch, req, hfil⟩ := filter_matches_singleton ps hnodup hnofk k hk
  constructor
  · rw [hfil]
    rfl
  · intro e he hne
    rw [hfil] at he
    have he' : e = (normalizeSchemaKey k, normalizeSchema sch, req,
        if normalizeSchemaKey k = k then none else some k) := by simpa using he
    rw [he']
    simp [if_neg hne]

/-- C4 witness: the amended structure preservation applied to a concrete
two-property object schema with one changing and one unchanged key. -/
theorem claim_C4_witness :
    ((Properties.cons "foo bar" plainStringSchema none none
        (.cons "Baz" (.boolean none) (some true) none .nil)).keysList.Nodup ∧
      (∀ k1 ∈ (Properties.cons "foo bar" plainStringSchema none none
          (.cons "Baz" (.boolean none) (some true) none .nil)).keysList,
        ∀ k2 ∈ (Properties.cons "foo bar" plainStringSchema none none
          (.cons "Baz" (.boolean none) (some true) none .nil)).keysList,
        normalizeSchemaKey k1 = normalizeSchemaKey k2 → k1 = k2)) ∧
    (mapNormalizeProps (Properties.cons "foo bar" plainStringSchema none none
      (.cons "Baz" (.boolean none) (some true) none .nil))).length =
      (Properties.cons "foo bar" plainStringSchema none none
        (.cons "Baz" (.boolean none) (some true) none .nil)).length := by
  refine ⟨⟨by decide, by decide⟩, ?_⟩
  exact (claim_C4_normalization_preserves_structure
    (Properties.cons "foo bar" plainStringSchema none none
      (.cons "Baz" (.boolean none) (some true) none .nil))
    none none none none none none (by decide) (by decide)
    (by
      intro k sch req fk hm
      simp only [Properties.toList, List.mem_cons, List.not_mem_nil, or_false] at hm
      rcases hm with h | h <;> simpa using congrArg (fun e => e.2.2.2) h)).2.1

/-! ## Helper lemmas: schema validation -/

theorem bind_unit_error (m : String) (f : Unit → Except String Unit) :
    (Except.error m >>= f) = .error m := rfl

theorem bind_unit_ok (f : Unit → Except String Unit) :
    (Except.ok () >>= f) = f () := rfl

theorem seq_ok_iff (e₁ : Except String Unit) (f : Unit → Except String Unit) :
    (e₁ >>= f) = .ok () ↔ e₁ = .ok () ∧ f () = .ok () := by
  cases e₁ with
  | error m => simp [bind_unit_error]
  | ok u => cases u; simp [bind_unit_ok]

theorem checkRequiredField_ok_iff (b : Bool) (f c : String) :
    checkRequiredFieldInObjectSchema b f c = .ok () ↔ b = true := by
  cases b <;> simp [checkRequiredFieldInObjectSchema]

theorem checkSchemaPropertyIsRequired_ok_iff (f : String) (props : Properties) (c : String) :
    checkSchemaPropertyIsRequired f props c = .ok () ↔ propRequiredTrue props f = true := by
  unfold checkSchemaPropertyIsRequired propRequiredTrue
  cases props.lookup f with
  | none => simp
  | some pr =>
    by_cases hr : pr.2.1 = some true
    · simp [hr]
    · simp [hr]

theorem codaTypeChecks_ok_iff (props : Properties) (id primary : Option String)
    (ct : Option ObjectHint) (idn : Option Identity) :
    codaTypeChecks props id primary ct idn = .ok () ↔
      localInvariantHolds props id primary ct idn = true := by
  cases ct with
  | none => simp [codaTypeChecks, localInvariantHolds]
  | some hint =>
    cases hint with
    | reference =>
      simp only [codaTypeChecks, localInvariantHolds, seq_ok_iff, checkRequiredField_ok_iff,
        checkSchemaPropertyIsRequired_ok_iff, Bool.and_eq_true]
      tauto
    | person =>
      simp only [codaTypeChecks, localInvariantHolds, seq_ok_iff, checkRequiredField_ok_iff,
        checkSchemaPropertyIsRequired_ok_iff, Bool.and_eq_true]

mutual
theorem validate_ok_iff : ∀ (s : Schema),
    validateObjectSchema s = .ok () ↔ invariantHolds s = true
  | .boolean _ => by simp [validateObjectSchema, invariantHolds]
  | .number _ _ _ _ _ _ _ _ _ _ => by simp [validateObjectSchema, invariantHolds]
  | .string _ _ _ _ _ _ _ => by simp [validateObjectSchema, invariantHolds]
  | .array _ _ => by simp [validateObjectSchema, invariantHolds]
  | .object props id primary ct ft idn d => by
    simp only [validateObjectSchema, invariantHolds, seq_ok_iff, codaTypeChecks_ok_iff,
      Bool.and_eq_true]
    exact and_congr Iff.rfl (validateProps_ok_iff props)

theorem validateProps_ok_iff : ∀ (ps : Properties),
    validateProperties ps = .ok () ↔ propsInvariant ps = true
  | .nil => by simp [validateProperties, propsInvariant]
  | .cons k sch req fk rest => by
    simp only [validateProperties, propsInvariant, seq_ok_iff, Bool.and_eq_true]
    refine and_congr ?_ (validateProps_ok_iff rest)
    cases sch with
    | object props id primary ct ft idn d =>
      exact validate_ok_iff (.object props id primary ct ft idn d)
    | boolean _ => simp
    | number _ _ _ _ _ _ _ _ _ _ => simp
    | string _ _ _ _ _ _ _ => simp
    | array _ _ => simp
end

theorem propsInvariant_tail (k : String) (s : Schema) (r : Option Bool) (f : Option String)
    (rest : Properties) (h : propsInvariant (.cons k s r f rest) = true) :
    propsInvariant rest = true := by
  cases s with
  | object props id primary ct ft idn d =>
    have h2 : (invariantHolds (.object props id primary ct ft idn d) &&
        propsInvariant rest) = true := h
    simp only [Bool.and_eq_true] at h2
    exact h2.2
  | boolean d => simpa using (show (true && propsInvariant rest) = true from h)
  | number a b c dd e f2 g h2 i j =>
    simpa using (show (true && propsInvariant rest) = true from h)
  | string a b c dd e f2 g =>
    simpa using (show (true && propsInvariant rest) = true from h)
  | array a b => simpa using (show (true && propsInvariant rest) = true from h)

theorem propsInvariant_head_object (k : String) (props : Properties) (id primary : Option String)
    (ct : Option ObjectHint) (ft : Option (List String)) (idn : Option Identity)
    (d : Option String) (r : Option Bool) (f : Option String) (rest : Properties)
    (h : propsInvariant (.cons k (.object props id primary ct ft idn d) r f rest) = true) :
    invariantHolds (.object props id primary ct ft idn d) = true := by
  have h2 : (invariantHolds (.object props id primary ct ft idn d) &&
      propsInvariant rest) = true := h
  simp only [Bool.and_eq_true] at h2
  exact h2.1

theorem propsInvariant_entry : ∀ (ps : Properties), propsInvariant ps = true →
    ∀ k v req fk, (k, v, req, fk) ∈ ps.toList → isObjectType v = true →
    invariantHolds v = true
  | .nil, _, k, v, req, fk, hm, _ => by simp [Properties.toList] at hm
  | .cons k0 v0 req0 fk0 rest, h, k, v, req, fk, hm, hobj => by
    simp only [Properties.toList, List.mem_cons] at hm
    rcases hm with hm | hm
    · have h4 : k = k0 ∧ v = v0 ∧ req = req0 ∧ fk = fk0 := by
        simpa [Prod.ext_iff] using hm
      rw [h4.2.1] at hobj ⊢
      cases v0 with
      | object props id primary ct ft idn d =>
        exact propsInvariant_head_object _ _ _ _ _ _ _ _ _ _ _ h
      | boolean _ => simp [isObjectType] at hobj
      | number _ _ _ _ _ _ _ _ _ _ => simp [isObjectType] at hobj
      | string _ _ _ _ _ _ _ => simp [isObjectType] at hobj
      | array _ _ => simp [isObjectType] at hobj
    · exact propsInvariant_entry rest (propsInvariant_tail _ _ _ _ _ h) k v req fk hm hobj

theorem invariantHolds_local : ∀ (s : Schema), invariantHolds s = true →
    schemaLocalInvariant s = true
  | .boolean _, _ => rfl
  | .number _ _ _ _ _ _ _ _ _ _, _ => rfl
  | .string _ _ _ _ _ _ _, _ => rfl
  | .array _ _, _ => rfl
  | .object props id primary ct ft idn d, h => by
    have h2 := h
    rw [show invariantHolds (.object props id primary ct ft idn d) =
        (localInvariantHolds props id primary ct idn && propsInvariant props) from rfl] at h2
    simp only [Bool.and_eq_true] at h2
    simpa [schemaLocalInvariant] using h2.1

theorem invariantHolds_props (props : Properties) (id primary : Option String)
    (ct : Option ObjectHint) (ft : Option (List String)) (idn : Option Identity)
    (d : Option String) (h : invariantHolds (.object props id primary ct ft idn d) = true) :
    propsInvariant props = true := by
  have h2 : (localInvariantHolds props id primary ct idn && propsInvariant props) = true := h
  simp only [Bool.and_eq_true] at h2
  exact h2.2

theorem lookup_erasePropsItems : ∀ (ps : Properties) (f : String),
    (erasePropsItems ps).lookup f =
      (ps.lookup f).map (fun pr => (eraseArrayItems pr.1, pr.2))
  | .nil, f => rfl
  | .cons k sch r fk rest, f => by
    simp only [erasePropsItems, Properties.lookup]
    by_cases hk : k = f
    · simp [hk]
    · simp [hk, lookup_erasePropsItems rest f]

theorem checkSchemaPropertyIsRequired_erase (f : String) (ps : Properties) (c : String) :
    checkSchemaPropertyIsRequired f (erasePropsItems ps) c =
      checkSchemaPropertyIsRequired f ps c := by
  unfold checkSchemaPropertyIsRequired
  rw [lookup_erasePropsItems]
  cases ps.lookup f with
  | none => rfl
  | some pr => rfl

theorem codaTypeChecks_erase (props : Properties) (id primary : Option String)
    (ct : Option ObjectHint) (idn : Option Identity) :
    codaTypeChecks (erasePropsItems props) id primary ct idn =
      codaTypeChecks props id primary ct idn := by
  cases ct with
  | none => rfl
  | some hint =>
    cases hint <;> simp [codaTypeChecks, checkSchemaPropertyIsRequired_erase]

mutual
theorem validate_erase : ∀ (s : Schema),
    validateObjectSchema (eraseArrayItems s) = validateObjectSchema s
  | .boolean _ => rfl
  | .number _ _ _ _ _ _ _ _ _ _ => rfl
  | .string _ _ _ _ _ _ _ => rfl
  | .array _ _ => rfl
  | .object props id primary ct ft idn d => by
    have hrec := validateProps_erase props
    rw [show eraseArrayItems (.object props id primary ct ft idn d) =
        .object (erasePropsItems props) id primary ct ft idn d from rfl]
    rw [show validateObjectSchema (.object (erasePropsItems props) id primary ct ft idn d) =
        (codaTypeChecks (erasePropsItems props) id primary ct idn >>=
          fun _ => validateProperties (erasePropsItems props)) from rfl]
    rw [show validateObjectSchema (.object props id primary ct ft idn d) =
        (codaTypeChecks props id primary ct idn >>= fun _ => validateProperties props) from rfl]
    rw [codaTypeChecks_erase, hrec]

theorem validateProps_erase : ∀ (ps : Properties),
    validateProperties (erasePropsItems ps) = validateProperties ps
  | .nil => rfl
  | .cons k sch r f rest => by
    have hrest := validateProps_erase rest
    cases sch with
    | object props id primary ct ft idn d =>
      have h1 := validate_erase (.object props id primary ct ft idn d)
      rw [show validateProperties (erasePropsItems (.cons k (.object props id primary ct ft idn d) r f rest)) =
          (validateObjectSchema (.object (erasePropsItems props) id primary ct ft idn d) >>=
            fun _ => validateProperties (erasePropsItems rest)) from rfl]
      rw [show validateProperties (.cons k (.object props id primary ct ft idn d) r f rest) =
          (validateObjectSchema (.object props id primary ct ft idn d) >>=
            fun _ => validateProperties rest) from rfl]
      rw [show validateObjectSchema (.object (erasePropsItems props) id primary ct ft idn d) =
          validateObjectSchema (.object props id primary ct ft idn d) from h1]
      rw [hrest]
    | boolean dd =>
      simp only [erasePropsItems, eraseArrayItems, validateProperties]
      rw [hrest]
    | number a b c d2 e f2 g h2 i j =>
      simp only [erasePropsItems, eraseArrayItems, validateProperties]
      rw [hrest]
    | string a b c d2 e f2 g =>
      simp only [erasePropsItems, eraseArrayItems, validateProperties]
      rw [hrest]
    | array a b =>
      rw [show validateProperties (erasePropsItems (.cons k (.array a b) r f rest)) =
          ((Except.ok () : Except String Unit) >>=
            fun _ => validateProperties (erasePropsItems rest)) from rfl]
      rw [show validateProperties (.cons k (.array a b) r f rest) =
          ((Except.ok () : Except String Unit) >>= fun _ => validateProperties rest) from rfl]
      rw [hrest]
end

/-! ## Claims about schema validation -/

/-- C6: object-schema validation recurses exactly into properties whose own
type is Object.  First conjunct: an invariant violation in a schema
reachable through a chain of direct object-typed properties makes
validation fail.  Second conjunct: validation never inspects the `items` of
any array-typed schema at any depth — replacing all array items leaves the
result of validation (success, or failure with the same error) unchanged,
so a violating object schema nested as the items of an array-typed property
is not walked and cannot cause construction to fail. -/
theorem claim_C6_validation_recursion :
    (∀ s t : Schema, ReachesObj s t → schemaLocalInvariant t = false →
      ∃ e, validateObjectSchema s = .error e) ∧
    (∀ s : Schema, validateObjectSchema (eraseArrayItems s) = validateObjectSchema s) := by
  constructor
  · intro s t hreach
    induction hreach with
    | refl s =>
      intro hbad
      cases hv : validateObjectSchema s with
      | error e => exact ⟨e, rfl⟩
      | ok u =>
        cases u
        have hinv := (validate_ok_iff s).mp hv
        rw [invariantHolds_local s hinv] at hbad
        exact absurd hbad (by simp)
    | @step v t props id primary ct ft idn d k req fk hmem hobj _ ih =>
      intro hbad
      rcases ih hbad with ⟨e, he⟩
      cases hv : validateObjectSchema (.object props id primary ct ft idn d) with
      | error e2 => exact ⟨e2, rfl⟩
      | ok u =>
        cases u
        have hinv := (validate_ok_iff _).mp hv
        have hprops := invariantHolds_props props id primary ct ft idn d hinv
        have hv0 : invariantHolds v = true :=
          propsInvariant_entry props hprops k v req fk hmem hobj
        have hok := (validate_ok_iff v).mpr hv0
        rw [he] at hok
        exact absurd hok (by simp)
  · exact validate_erase

/-- C6 witness: a Person-hint violation two object levels down makes the
outer construction fail, while the same violating schema placed as the
items of an array-typed property does not (the array-items half applied to
a concrete schema whose validation succeeds). -/
theorem claim_C6_witness :
    (schemaLocalInvariant (Schema.object .nil none none (some .person) none none none) = false ∧
      ∃ e, validateObjectSchema (Schema.object
        (.cons "inner" (Schema.object .nil none none (some .person) none none none)
          none none .nil)
        none none none none none none) = .error e) ∧
    (validateObjectSchema (eraseArrayItems (Schema.object
        (.cons "list" (Schema.array
          (Schema.object .nil none none (some .person) none none none) none)
          none none .nil)
        none none none none none none)) =
      validateObjectSchema (Schema.object
        (.cons "list" (Schema.array
          (Schema.object .nil none none (some .person) none none none) none)
          none none .nil)
        none none none none none none) ∧
      validateObjectSchema (Schema.object
        (.cons "list" (Schema.array
          (Schema.object .nil none none (some .person) none none none) none)
          none none .nil)
        none none none none none none) = .ok ()) := by
  refine ⟨⟨by decide, ?_⟩, ?_, by decide⟩
  · exact claim_C6_validation_recursion.1 _
      (Schema.object .nil none none (some .person) none none none)
      (ReachesObj.step _ none none none none none none "inner" none none
        (by simp [Properties.toList]) (by decide) (ReachesObj.refl _))
      (by decide)
  · exact claim_C6_validation_recursion.2 _

theorem makeObjectSchema_error (props : Properties) (id primary : Option String)
    (ct : Option ObjectHint) (ft : Option (List String)) (idn : Option Identity)
    (d : Option String) (m : String)
    (h : validateObjectSchema (.object props id primary ct ft idn d) = .error m) :
    makeObjectSchema props id primary ct ft idn d = .error m := by
  have hdef : makeObjectSchema props id primary ct ft idn d =
      (match validateObjectSchema (.object props id primary ct ft idn d) with
       | .error e => .error e
       | .ok () => .ok (.object props id primary ct ft idn d)) := rfl
  rw [hdef, h]

theorem makeObjectSchema_ok_iff (props : Properties) (id primary : Option String)
    (ct : Option ObjectHint) (ft : Option (List String)) (idn : Option Identity)
    (d : Option String) :
    (∃ s, makeObjectSchema props id primary ct ft idn d = .ok s) ↔
      validateObjectSchema (.object props id primary ct ft idn d) = .ok () := by
  have hdef : makeObjectSchema props id primary ct ft idn d =
      (match validateObjectSchema (.object props id primary ct ft idn d) with
       | .error e => .error e
       | .ok () => .ok (.object props id primary ct ft idn d)) := rfl
  rw [hdef]
  cases validateObjectSchema (.object props id primary ct ft idn d) with
  | error e => simp
  | ok u => cases u; simp

theorem validateObjectSchema_object (props : Properties) (id primary : Option String)
    (ct : Option ObjectHint) (ft : Option (List String)) (idn : Option Identity)
    (d : Option String) :
    validateObjectSchema (.object props id primary ct ft idn d) =
      (codaTypeChecks props id primary ct idn >>= fun _ => validateProperties props) := rfl

theorem checkSchemaPropertyIsRequired_lookup_none {f : String} {props : Properties} {c : String}
    (h : props.lookup f = none) :
    checkSchemaPropertyIsRequired f props c = .error undefinedReadRequiredMsg := by
  unfold checkSchemaPropertyIsRequired
  rw [h]

theorem checkSchemaPropertyIsRequired_not_required {f : String} {props : Properties} {c : String}
    {sch : Schema} {req : Option Bool} {fk : Option String}
    (h : props.lookup f = some (sch, req, fk)) (hr : ¬req = some true) :
    checkSchemaPropertyIsRequired f props c =
      .error ("Field \"" ++ f ++ "\" must be marked as required in schema with codaType \"" ++
        c ++ "\".") := by
  unfold checkSchemaPropertyIsRequired
  rw [h]
  simp [hr]

/-- C1 counterexample: a `Reference` object schema whose `id` names a
property absent from `properties` fails, but with a generic JS lookup
error (`properties[field].required` on `undefined`, schema.ts line 853)
whose message does not name the offending codaType, contradicting the
claim that every such failure message names the codaType and field. -/
theorem claim_C1_counterexample :
    makeObjectSchema (.cons "y" (.boolean none) none none .nil) (some "x") (some "x")
      (some .reference) none (some {name := "Ident"}) none =
      .error undefinedReadRequiredMsg ∧
    listContainsRun "reference".data undefinedReadRequiredMsg.data = false := by
  constructor
  · decide
  · decide

/-- C1 (amended): characterization of `makeObjectSchema` validation for the
`Reference` and `Person` hints.  Missing `id`/`identity`/`primary` fail
with the message naming the codaType and the missing field; a named
property that exists but is not `required: true` fails with the message
naming the field and codaType; a named property absent from `properties`
altogether still fails, but with a generic lookup error naming neither
(the amendment); and construction succeeds exactly when the invariants
hold hereditarily through object-typed properties. -/
theorem claim_C1_makeObjectSchema_validation :
    (∀ (props : Properties) (primary : Option String) ft idn d,
      makeObjectSchema props none primary (some .reference) ft idn d =
        .error "Objects with codaType \"reference\" require a \"id\" property in the schema definition.") ∧
    (∀ (props : Properties) (i : String) (primary : Option String) ft d,
      makeObjectSchema props (some i) primary (some .reference) ft none d =
        .error "Objects with codaType \"reference\" require a \"identity\" property in the schema definition.") ∧
    (∀ (props : Properties) (i : String) ft (idn : Identity) d,
      makeObjectSchema props (some i) none (some .reference) ft (some idn) d =
        .error "Objects with codaType \"reference\" require a \"primary\" property in the schema definition.") ∧
    (∀ (props : Properties) (i p : String) ft (idn : Identity) d,
      props.lookup i = none →
      makeObjectSchema props (some i) (some p) (some .reference) ft (some idn) d =
        .error undefinedReadRequiredMsg) ∧
    (∀ (props : Properties) (i p : String) ft (idn : Identity) d (sch : Schema)
        (req : Option Bool) (fk : Option String),
      props.lookup i = some (sch, req, fk) → ¬req = some true →
      makeObjectSchema props (some i) (some p) (some .reference) ft (some idn) d =
        .error ("Field \"" ++ i ++ "\" must be marked as required in schema with codaType \"" ++
          "reference" ++ "\".")) ∧
    (∀ (props : Properties) (i p : String) ft (idn : Identity) d,
      propRequiredTrue props i = true → props.lookup p = none →
      makeObjectSchema props (some i) (some p) (some .reference) ft (some idn) d =
        .error undefinedReadRequiredMsg) ∧
    (∀ (props : Properties) (i p : String) ft (idn : Identity) d (sch : Schema)
        (req : Option Bool) (fk : Option String),
      propRequiredTrue props i = true →
      props.lookup p = some (sch, req, fk) → ¬req = some true →
      makeObjectSchema props (some i) (some p) (some .reference) ft (some idn) d =
        .error ("Field \"" ++ p ++ "\" must be marked as required in schema with codaType \"" ++
          "reference" ++ "\".")) ∧
    (∀ (props : Properties) (primary : Option String) ft idn d,
      makeObjectSchema props none primary (some .person) ft idn d =
        .error "Objects with codaType \"person\" require a \"id\" property in the schema definition.") ∧
    (∀ (props : Properties) (i : String) (primary : Option String) ft idn d,
      props.lookup i = none →
      makeObjectSchema props (some i) primary (some .person) ft idn d =
        .error undefinedReadRequiredMsg) ∧
    (∀ (props : Properties) (i : String) (primary : Option String) ft idn d (sch : Schema)
        (req : Option Bool) (fk : Option String),
      props.lookup i = some (sch, req, fk) → ¬req = some true →
      makeObjectSchema props (some i) primary (some .person) ft idn d =
        .error ("Field \"" ++ i ++ "\" must be marked as required in schema with codaType \"" ++
          "person" ++ "\".")) ∧
    (∀ (props : Properties) (id primary : Option String) (ct : Option ObjectHint) ft idn d,
      (∃ s, makeObjectSchema props id primary ct ft idn d = .ok s) ↔
        invariantHolds (.object props id primary ct ft idn d) = true) := by
  refine ⟨?_, ?_, ?_, ?_, ?_, ?_, ?_, ?_, ?_, ?_, ?_⟩
  · intro props primary ft idn d
    exact makeObjectSchema_error _ _ _ _ _ _ _ _ rfl
  · intro props i primary ft d
    exact makeObjectSchema_error _ _ _ _ _ _ _ _ rfl
  · intro props i ft idn d
    exact makeObjectSchema_error _ _ _ _ _ _ _ _ rfl
  · intro props i p ft idn d h
    apply makeObjectSchema_error
    rw [validateObjectSchema_object]
    rw [show codaTypeChecks props (some i) (some p) (some .reference) (some idn) =
        (checkSchemaPropertyIsRequired i props "reference" >>= fun _ =>
          checkSchemaPropertyIsRequired p props "reference") from rfl]
    rw [checkSchemaPropertyIsRequired_lookup_none h]
    rfl
  · intro props i p ft idn d sch req fk h hr
    apply makeObjectSchema_error
    rw [validateObjectSchema_object]
    rw [show codaTypeChecks props (some i) (some p) (some .reference) (some idn) =
        (checkSchemaPropertyIsRequired i props "reference" >>= fun _ =>
          checkSchemaPropertyIsRequired p props "reference") from rfl]
    rw [checkSchemaPropertyIsRequired_not_required h hr]
    rfl
  · intro props i p ft idn d hid h
    apply makeObjectSchema_error
    rw [validateObjectSchema_object]
    rw [show codaTypeChecks props (some i) (some p) (some .reference) (some idn) =
        (checkSchemaPropertyIsRequired i props "reference" >>= fun _ =>
          checkSchemaPropertyIsRequired p props "reference") from rfl]
    rw [(checkSchemaPropertyIsRequired_ok_iff i props "reference").mpr hid, bind_unit_ok]
    rw [checkSchemaPropertyIsRequired_lookup_none h]
    rfl
  · intro props i p ft idn d sch req fk hid h hr
    apply makeObjectSchema_error
    rw [validateObjectSchema_object]
    rw [show codaTypeChecks props (some i) (some p) (some .reference) (some idn) =
        (checkSchemaPropertyIsRequired i props "reference" >>= fun _ =>
          checkSchemaPropertyIsRequired p props "reference") from rfl]
    rw [(checkSchemaPropertyIsRequired_ok_iff i props "reference").mpr hid, bind_unit_ok]
    rw [checkSchemaPropertyIsRequired_not_required h hr]
    rfl
  · intro props primary ft idn d
    exact makeObjectSchema_error _ _ _ _ _ _ _ _ rfl
  · intro props i primary ft idn d h
    apply makeObjectSchema_error
    rw [validateObjectSchema_object]
    rw [show codaTypeChecks props (some i) primary (some .person) idn =
        checkSchemaPropertyIsRequired i props "person" from rfl]
    rw [checkSchemaPropertyIsRequired_lookup_none h]
    rfl
  · intro props i primary ft idn d sch req fk h hr
    apply makeObjectSchema_error
    rw [validateObjectSchema_object]
    rw [show codaTypeChecks props (some i) primary (some .person) idn =
        checkSchemaPropertyIsRequired i props "person" from rfl]
    rw [checkSchemaPropertyIsRequired_not_required h hr]
    rfl
  · intro props id primary ct ft idn d
    rw [makeObjectSchema_ok_iff]
    exact validate_ok_iff _

/-- C1 witness: the validation characterization applied at concrete inputs —
a Reference schema without `id` yields the id message; a Reference schema
whose `id` property is present but not required yields the required-field
message; and the invariant-satisfying reference schema from the spec (E2E
scenario A) constructs without error. -/
theorem claim_C1_witness :
    makeObjectSchema .nil none none (some .reference) none none none =
      .error "Objects with codaType \"reference\" require a \"id\" property in the schema definition." ∧
    ((Properties.cons "x" plainStringSchema (some false) none .nil).lookup "x" =
        some (plainStringSchema, some false, none) ∧
      makeObjectSchema (.cons "x" plainStringSchema (some false) none .nil) (some "x") (some "x")
        (some .reference) none (some {name := "Ident"}) none =
        .error ("Field \"" ++ "x" ++ "\" must be marked as required in schema with codaType \"" ++
          "reference" ++ "\".")) ∧
    (invariantHolds (.object
        (.cons "rowId" (.number none none none none none none none none none none) (some true) none
          (.cons "title" plainStringSchema (some true) none .nil))
        (some "rowId") (some "title") (some .reference) none (some {name := "X"}) none) = true ∧
      ∃ s, makeObjectSchema
        (.cons "rowId" (.number none none none none none none none none none none) (some true) none
          (.cons "title" plainStringSchema (some true) none .nil))
        (some "rowId") (some "title") (some .reference) none (some {name := "X"}) none = .ok s) :=
  ⟨claim_C1_makeObjectSchema_validation.1 .nil none none none none,
   ⟨by decide,
    claim_C1_makeObjectSchema_validation.2.2.2.2.1 _ "x" "x" none {name := "Ident"} none
      plainStringSchema (some false) none (by decide) (by decide)⟩,
   ⟨by decide,
    (claim_C1_makeObjectSchema_validation.2.2.2.2.2.2.2.2.2.2 _ (some "rowId") (some "title")
      (some .reference) none (some {name := "X"}) none).mpr (by decide)⟩⟩

/-! ## Helper lemmas: the fetcher response pipeline -/

theorem authenticatingFetcherFetch_oversized (jp xp : List Char → Except String JsValue)
    (resp : TransportResponse)
    (hcond : ¬resp.body.isEmpty ∧ MAX_CONTENT_LENGTH_BYTES ≤ resp.body.length) :
    authenticatingFetcherFetch jp xp resp =
      .error ("Response body is too large for Coda. Body is " ++
        toString resp.body.length ++ " bytes.") := by
  unfold authenticatingFetcherFetch
  rw [if_pos hcond]

theorem authenticatingFetcherFetch_ok (jp xp : List Char → Except String JsValue)
    (resp : TransportResponse)
    (hcond : ¬(¬resp.body.isEmpty ∧ MAX_CONTENT_LENGTH_BYTES ≤ resp.body.length)) :
    authenticatingFetcherFetch jp xp resp = .ok
      { status := resp.statusCode
        headers := resp.headers.filter (fun kv => decide (¬jsToLower kv.1 = "authorization"))
        body := match chosenParser jp xp resp with
          | .ok v => if jsTypeofIsObject v then .parsed v else .raw resp.body
          | .error _ => .raw resp.body } := by
  unfold authenticatingFetcherFetch
  rw [if_neg hcond]
  rfl

theorem body_nonempty_of_ge_max (body : List Char)
    (h : MAX_CONTENT_LENGTH_BYTES ≤ body.length) : ¬body.isEmpty = true := by
  cases hb : body with
  | nil =>
    rw [hb] at h
    simp only [List.length_nil] at h
    unfold MAX_CONTENT_LENGTH_BYTES at h
    omega
  | cons c cs => simp [List.isEmpty]

/-! ## Claims about the fetcher response pipeline -/

/-- C7: a decoded response body of length at least 25 MiB makes the fetch
fail with a size-exceeded error naming the body size, and does so for every
possible JSON/XML decoder — the guard runs before any decoding is
attempted; a body below the threshold is never rejected for size (the
pipeline returns a response). -/
theorem claim_C7_fetch_size_guard :
    (∀ (jsonParse xmlParse : List Char → Except String JsValue) (resp : TransportResponse),
      MAX_CONTENT_LENGTH_BYTES ≤ resp.body.length →
      authenticatingFetcherFetch jsonParse xmlParse resp =
        .error ("Response body is too large for Coda. Body is " ++
          toString resp.body.length ++ " bytes.")) ∧
    (∀ (jsonParse xmlParse : List Char → Except String JsValue) (resp : TransportResponse),
      resp.body.length < MAX_CONTENT_LENGTH_BYTES →
      ∃ r, authenticatingFetcherFetch jsonParse xmlParse resp = .ok r) := by
  constructor
  · intro jp xp resp h
    exact authenticatingFetcherFetch_oversized jp xp resp ⟨body_nonempty_of_ge_max _ h, h⟩
  · intro jp xp resp h
    refine ⟨_, authenticatingFetcherFetch_ok jp xp resp ?_⟩
    intro hc
    exact absurd hc.2 (by omega)

/-- C7 witness: the guard applied to a body of exactly 25 MiB (for every
byte of which no decoding happens: the decoders here fail on any input),
and the below-threshold conjunct applied to a one-character body. -/
theorem claim_C7_witness :
    MAX_CONTENT_LENGTH_BYTES ≤ (List.replicate MAX_CONTENT_LENGTH_BYTES 'a').length ∧
    authenticatingFetcherFetch (fun _ => .error "boom") (fun _ => .error "boom")
      { statusCode := 200, headers := [], body := List.replicate MAX_CONTENT_LENGTH_BYTES 'a' } =
      .error ("Response body is too large for Coda. Body is " ++
        toString (List.replicate MAX_CONTENT_LENGTH_BYTES 'a').length ++ " bytes.") ∧
    ((['h'] : List Char).length < MAX_CONTENT_LENGTH_BYTES ∧
      ∃ r, authenticatingFetcherFetch (fun _ => .error "boom") (fun _ => .error "boom")
        { statusCode := 200, headers := [], body := ['h'] } = .ok r) :=
  ⟨by simp,
   claim_C7_fetch_size_guard.1 _ _ _ (by simp),
   by
     have h1 : ((['h'] : List Char)).length < MAX_CONTENT_LENGTH_BYTES := by
       simp [MAX_CONTENT_LENGTH_BYTES]
     exact ⟨h1, claim_C7_fetch_size_guard.2 _ _ _ h1⟩⟩

/-- C8: every successful fetch result carries no header whose name is
`authorization` under case-insensitive comparison; the headers are exactly
the transport headers with those entries removed (all others pass through
unchanged, in order), and the status code is the transport status code. -/
theorem claim_C8_fetch_strips_authorization :
    ∀ (jsonParse xmlParse : List Char → Except String JsValue) (resp : TransportResponse)
      (r : FetchResponse),
      authenticatingFetcherFetch jsonParse xmlParse resp = .ok r →
      (∀ kv ∈ r.headers, ¬jsToLower kv.1 = "authorization") ∧
      r.headers = resp.headers.filter (fun kv => decide (¬jsToLower kv.1 = "authorization")) ∧
      r.status = resp.statusCode := by
  intro jp xp resp r h
  by_cases hcond : (¬resp.body.isEmpty ∧ MAX_CONTENT_LENGTH_BYTES ≤ resp.body.length)
  · rw [authenticatingFetcherFetch_oversized jp xp resp hcond] at h
    exact absurd h (by simp)
  · rw [authenticatingFetcherFetch_ok jp xp resp hcond] at h
    injection h with h2
    subst h2
    refine ⟨?_, rfl, rfl⟩
    intro kv hkv
    exact of_decide_eq_true (List.mem_filter.mp hkv).2

/-- C8 witness: the header-stripping applied to a concrete response whose
transport headers include an `Authorization` header. -/
theorem claim_C8_witness :
    authenticatingFetcherFetch (fun _ => .error "boom") (fun _ => .error "boom")
      ⟨201, [("content-type", "application/json"), ("Authorization", "secret")], ['h', 'i']⟩ =
      .ok ⟨201, [("content-type", "application/json")], .raw ['h', 'i']⟩ ∧
    ((∀ kv ∈ (FetchResponse.mk 201 [("content-type", "application/json")]
        (.raw ['h', 'i'])).headers, ¬jsToLower kv.1 = "authorization") ∧
      (FetchResponse.mk 201 [("content-type", "application/json")] (.raw ['h', 'i'])).headers =
        [("content-type", "application/json"), ("Authorization", "secret")].filter
          (fun kv => decide (¬jsToLower kv.1 = "authorization")) ∧
      (FetchResponse.mk 201 [("content-type", "application/json")] (.raw ['h', 'i'])).status =
        (TransportResponse.mk 201
          [("content-type", "application/json"), ("Authorization", "secret")]
          ['h', 'i']).statusCode) := by
  have hfetch : authenticatingFetcherFetch (fun _ => .error "boom") (fun _ => .error "boom")
      ⟨201, [("content-type", "application/json"), ("Authorization", "secret")], ['h', 'i']⟩ =
      .ok ⟨201, [("content-type", "application/json")], .raw ['h', 'i']⟩ := by
    rw [authenticatingFetcherFetch_ok _ _ _ (by decide)]
    simp +decide [chosenParser]
  exact ⟨hfetch,
    claim_C8_fetch_strips_authorization (fun _ => .error "boom") (fun _ => .error "boom")
      ⟨201, [("content-type", "application/json"), ("Authorization", "secret")], ['h', 'i']⟩
      ⟨201, [("content-type", "application/json")], .raw ['h', 'i']⟩ hfetch⟩

/-- C9: body decoding in the fetch pipeline never propagates an error.  For
every pair of decoders and every response below the size threshold the
pipeline returns a result; the XML decoder is selected exactly when the
`content-type` header contains `text/xml` and the JSON decoder otherwise
(`chosenParser`); and the returned body is the raw string whenever the
selected decoder fails or yields a non-object (in the JS `typeof` sense),
and the parsed value when it yields an object. -/
theorem claim_C9_fetch_decode_fallback :
    (∀ (jsonParse xmlParse : List Char → Except String JsValue) (resp : TransportResponse),
      ¬(¬resp.body.isEmpty ∧ MAX_CONTENT_LENGTH_BYTES ≤ resp.body.length) →
      ∃ r, authenticatingFetcherFetch jsonParse xmlParse resp = .ok r) ∧
    (∀ (jsonParse xmlParse : List Char → Except String JsValue) (resp : TransportResponse)
        (ct : String),
      List.lookup "content-type" resp.headers = some ct →
      (stringIncludes ct "text/xml" = true →
        chosenParser jsonParse xmlParse resp = xmlParse resp.body) ∧
      (stringIncludes ct "text/xml" = false →
        chosenParser jsonParse xmlParse resp = jsonParse resp.body)) ∧
    (∀ (jsonParse xmlParse : List Char → Except String JsValue) (resp : TransportResponse),
      List.lookup "content-type" resp.headers = none →
      chosenParser jsonParse xmlParse resp = jsonParse resp.body) ∧
    (∀ (jsonParse xmlParse : List Char → Except String JsValue) (resp : TransportResponse)
        (r : FetchResponse),
      authenticatingFetcherFetch jsonParse xmlParse resp = .ok r →
      (∀ e, chosenParser jsonParse xmlParse resp = .error e → r.body = .raw resp.body) ∧
      (∀ v, chosenParser jsonParse xmlParse resp = .ok v → jsTypeofIsObject v = false →
        r.body = .raw resp.body) ∧
      (∀ v, chosenParser jsonParse xmlParse resp = .ok v → jsTypeofIsObject v = true →
        r.body = .parsed v)) := by
  refine ⟨?_, ?_, ?_, ?_⟩
  · intro jp xp resp hc
    exact ⟨_, authenticatingFetcherFetch_ok jp xp resp hc⟩
  · intro jp xp resp ct h
    unfold chosenParser
    rw [h]
    constructor
    · intro hx
      show (if stringIncludes ct "text/xml" = true then xp resp.body else jp resp.body) =
        xp resp.body
      rw [if_pos hx]
    · intro hx
      show (if stringIncludes ct "text/xml" = true then xp resp.body else jp resp.body) =
        jp resp.body
      rw [if_neg (by simp [hx])]
  · intro jp xp resp h
    unfold chosenParser
    rw [h]
  · intro jp xp resp r h
    by_cases hcond : (¬resp.body.isEmpty ∧ MAX_CONTENT_LENGTH_BYTES ≤ resp.body.length)
    · rw [authenticatingFetcherFetch_oversized jp xp resp hcond] at h
      exact absurd h (by simp)
    · rw [authenticatingFetcherFetch_ok jp xp resp hcond] at h
      injection h with h2
      subst h2
      refine ⟨?_, ?_, ?_⟩
      · intro e he
        show (match chosenParser jp xp resp with
          | .ok v => if jsTypeofIsObject v then FetchedBody.parsed v else .raw resp.body
          | .error _ => .raw resp.body) = .raw resp.body
        rw [he]
      · intro v hv hobj
        show (match chosenParser jp xp resp with
          | .ok v => if jsTypeofIsObject v then FetchedBody.parsed v else .raw resp.body
          | .error _ => .raw resp.body) = .raw resp.body
        rw [hv]
        simp [hobj]
      · intro v hv hobj
        show (match chosenParser jp xp resp with
          | .ok v => if jsTypeofIsObject v then FetchedBody.parsed v else .raw resp.body
          | .error _ => .raw resp.body) = .parsed v
        rw [hv]
        simp [hobj]

/-- C9 witness: the decode fallback at concrete inputs — a failing JSON
decode of a JSON-typed response returns the raw body, the xml branch is
selected for a `text/xml` content type, and a decoder returning a bare
number (a non-object) also falls back to the raw body. -/
theorem claim_C9_witness :
    (¬(¬(['4', '2'] : List Char).isEmpty ∧
        MAX_CONTENT_LENGTH_BYTES ≤ (['4', '2'] : List Char).length) ∧
      ∃ r, authenticatingFetcherFetch (fun _ => .error "boom") (fun _ => .error "boom")
        ⟨200, [("content-type", "text/plain")], ['4', '2']⟩ = .ok r) ∧
    (List.lookup "content-type"
        [("content-type", "text/xml; charset=utf-8")] = some "text/xml; charset=utf-8" ∧
      stringIncludes "text/xml; charset=utf-8" "text/xml" = true ∧
      chosenParser (fun _ => .ok (.objVal [])) (fun _ => .ok (.strVal "x"))
        ⟨200, [("content-type", "text/xml; charset=utf-8")], ['<', 'a', '>']⟩ =
        (fun _ => (.ok (.strVal "x") : Except String JsValue)) ['<', 'a', '>']) ∧
    (authenticatingFetcherFetch (fun _ => .ok (.numVal 42)) (fun _ => .ok (.numVal 42))
        ⟨200, [], ['4', '2']⟩ = .ok ⟨200, [], .raw ['4', '2']⟩ ∧
      chosenParser (fun _ => .ok (.numVal 42)) (fun _ => .ok (.numVal 42))
        ⟨200, [], ['4', '2']⟩ = .ok (.numVal 42) ∧
      jsTypeofIsObject (.numVal 42) = false ∧
      (FetchResponse.mk 200 [] (.raw ['4', '2'])).body = .raw ['4', '2']) := by
  refine ⟨⟨by decide, ?_⟩, ⟨by decide, by decide, ?_⟩, ?_, by rfl, by rfl, ?_⟩
  · exact claim_C9_fetch_decode_fallback.1 _ _ _ (by decide)
  · exact ((claim_C9_fetch_decode_fallback.2.1 _ _
      ⟨200, [("content-type", "text/xml; charset=utf-8")], ['<', 'a', '>']⟩
      "text/xml; charset=utf-8" (by decide)).1 (by decide))
  · have hfetch : authenticatingFetcherFetch (fun _ => .ok (.numVal 42))
        (fun _ => .ok (.numVal 42)) ⟨200, [], ['4', '2']⟩ =
        .ok ⟨200, [], .raw ['4', '2']⟩ := by
      rw [authenticatingFetcherFetch_ok _ _ _ (by decide)]
      simp [chosenParser, jsTypeofIsObject]
    exact hfetch
  · exact (claim_C9_fetch_decode_fallback.2.2.2 (fun _ => .ok (.numVal 42))
      (fun _ => .ok (.numVal 42)) ⟨200, [], ['4', '2']⟩ ⟨200, [], .raw ['4', '2']⟩
      (by
        rw [authenticatingFetcherFetch_ok _ _ _ (by decide)]
        simp [chosenParser, jsTypeofIsObject])).2.1 (.numVal 42) (by rfl) (by rfl)

/-! ## Claim about `generateSchema` -/

/-- C10: `generateSchema` raises `Must have representative value.` on the
empty array; on a non-empty array it returns an Array schema whose items
schema is `generateSchema` of the first element alone — later elements are
ignored entirely; and `null` maps to a String schema (the least common
denominator, per the source comment) rather than failing. -/
theorem claim_C10_generateSchema :
    generateSchema (.arr .nil) = .error "Must have representative value." ∧
    (∀ (x : JsInput) (xs ys : JsInputList),
      generateSchema (.arr (.cons x xs)) = generateSchema (.arr (.cons x ys))) ∧
    (∀ (x : JsInput) (xs : JsInputList),
      generateSchema (.arr (.cons x xs)) =
        (generateSchema x).map (fun s => .array s none)) ∧
    generateSchema .nullVal = .ok plainStringSchema := by
  refine ⟨rfl, ?_, ?_, rfl⟩
  · intro x xs ys
    rfl
  · intro x xs
    have hdef : generateSchema (.arr (.cons x xs)) =
        (match generateSchema x with
         | .error e => .error e
         | .ok s => .ok (.array s none)) := rfl
    rw [hdef]
    cases generateSchema x with
    | error e => rfl
    | ok s => rfl

/-! ## Claim about mutation in `normalizeSchema` (heap semantics) -/

/-- C3: contrary to the claim (and the spec contract of purity),
`normalizeSchema` mutates its input.  On the object schema
`{type: Object, properties: {'a b': {type: String}}}`, the property loop
executes `Object.assign(normalizeSchema(props), {required,
fromKey: 'a b'})` (schema.ts line 876), and since `normalizeSchema` of the
scalar property returned the input property schema object itself
(schema.ts line 893), the assignment writes `fromKey: 'a b'` into the
input: after the call the node at address 1 — the input's own property
schema — differs from its value before the call. -/
theorem claim_C3_normalizeSchema_mutates_input :
    normalizeSchemaImp 5
      [.objectNode [("a b", 1)] none none none none none none none none,
       .scalar .stringTag none none none] 0 =
      some ([.objectNode [("a b", 1)] none none none none none none none none,
             .scalar .stringTag none none (some "a b"),
             .objectNode [("AB", 1)] none none none none none none none none], 2) ∧
    List.get? [JsSchemaNode.objectNode [("a b", 1)] none none none none none none none none,
      .scalar .stringTag none none none] 1 =
      some (.scalar .stringTag none none none) ∧
    List.get? [JsSchemaNode.objectNode [("a b", 1)] none none none none none none none none,
      .scalar .stringTag none none (some "a b"),
      .objectNode [("AB", 1)] none none none none none none none none] 1 =
      some (.scalar .stringTag none none (some "a b")) ∧
    ¬((JsSchemaNode.scalar .stringTag none none none) =
      (.scalar .stringTag none none (some "a b"))) := by
  refine ⟨by decide, by decide, by decide, by decide⟩
